import Mathlib

/-!
Verification of the JSON file-backed document store.

This file gives a shallow embedding of the store's source:
* `JValue` — the JSON document model (numbers restricted to integers,
  the only numeric values the claims exercise);
* a serializer mirroring `JSON.stringify(data, null, 2)` and a
  lexer/parser mirroring `JSON.parse`;
* a file-system and fault model for the `node:fs/promises` primitives
  the store uses (`access`, `open`, `writeFile`, `sync`, `close`,
  `rename`, `unlink`, `readFile`);
* the two `JSONStore` classes of the source (`V1` prefixed and the later
  one), their lifecycle operations and the nested-path accessors;
* a transition system for the promise-chained `AsyncMutex`.
-/

/-! ## JSON document model -/

/-- A JSON value as held by the store.  Numbers are modelled as integers:
the source never manipulates numeric values, and every concrete number in
the claims is integral.  Object fields keep insertion order, as JS objects
do. -/
inductive JValue where
  | null : JValue
  | bool (b : Bool) : JValue
  | num (n : Int) : JValue
  | str (s : String) : JValue
  | arr (elems : List JValue) : JValue
  | obj (fields : List (String × JValue)) : JValue

/-! ## Decimal digits (used by the serializer and the lexer) -/

/-- Character for a single decimal digit. -/
def digitChar (d : Nat) : Char :=
  match d with
  | 0 => '0' | 1 => '1' | 2 => '2' | 3 => '3' | 4 => '4'
  | 5 => '5' | 6 => '6' | 7 => '7' | 8 => '8' | 9 => '9'
  | _ => '0'

/-- Numeric value of a decimal digit character. -/
def digitVal (c : Char) : Nat := c.toNat - 48

def isDigitChar (c : Char) : Bool := 48 ≤ c.toNat && c.toNat ≤ 57

/-- Fuel-driven decimal printing of a natural number (most significant
digit first); `fuel ≥ n` suffices. -/
def natCharsAux : Nat → Nat → List Char → List Char
  | 0, _, acc => acc
  | fuel + 1, n, acc =>
    if n = 0 then acc else natCharsAux fuel (n / 10) (digitChar (n % 10) :: acc)

/-- Decimal digits of `n`, as JS `String(n)` produces for naturals. -/
def natChars (n : Nat) : List Char :=
  if n = 0 then ['0'] else natCharsAux n n []

/-- Decimal rendering of an integer, as JS `String(i)` for integral
numbers (also the output of `JSON.stringify` on them). -/
def intChars (i : Int) : List Char :=
  if i < 0 then '-' :: natChars i.natAbs else natChars i.natAbs

/-- Decode a most-significant-first digit string. -/
def decodeDigits (cs : List Char) : Nat :=
  Nat.ofDigits 10 ((cs.map digitVal).reverse)

/-- Lowercase hexadecimal digit, as `JSON.stringify` uses in `\u00xx`
escapes. -/
def hexChar (d : Nat) : Char :=
  match d with
  | 0 => '0' | 1 => '1' | 2 => '2' | 3 => '3' | 4 => '4'
  | 5 => '5' | 6 => '6' | 7 => '7' | 8 => '8' | 9 => '9'
  | 10 => 'a' | 11 => 'b' | 12 => 'c' | 13 => 'd' | 14 => 'e' | 15 => 'f'
  | _ => '0'

/-- Numeric value of a hexadecimal digit character (lower or upper case,
as `JSON.parse` accepts). -/
def hexVal (c : Char) : Nat :=
  if 48 ≤ c.toNat && c.toNat ≤ 57 then c.toNat - 48
  else if 97 ≤ c.toNat && c.toNat ≤ 102 then c.toNat - 87
  else if 65 ≤ c.toNat && c.toNat ≤ 70 then c.toNat - 55
  else 0

def isHexChar (c : Char) : Bool :=
  (48 ≤ c.toNat && c.toNat ≤ 57) || (97 ≤ c.toNat && c.toNat ≤ 102) ||
    (65 ≤ c.toNat && c.toNat ≤ 70)

/-! ## Serializer — `JSON.stringify(data, null, 2)` -/

/-- Escape one character of a JSON string, following `QuoteJSONString`:
`"` and `\` get a backslash, the five short control escapes are used, and
the remaining control characters become `\u00xx` with lowercase hex. -/
def escapeChar (c : Char) : List Char :=
  if c = '"' then ['\\', '"']
  else if c = '\\' then ['\\', '\\']
  else if c.toNat = 8 then ['\\', 'b']
  else if c.toNat = 9 then ['\\', 't']
  else if c.toNat = 10 then ['\\', 'n']
  else if c.toNat = 12 then ['\\', 'f']
  else if c.toNat = 13 then ['\\', 'r']
  else if c.toNat < 32 then
    ['\\', 'u', '0', '0', hexChar (c.toNat / 16), hexChar (c.toNat % 16)]
  else [c]

/-- Quoted, escaped JSON string literal. -/
def quoteChars (s : String) : List Char :=
  '"' :: s.data.flatMap escapeChar ++ ['"']

/-- `indent * 2` spaces: the gap `JSON.stringify` inserts at nesting depth
`indent` for the indentation argument `2`. -/
def gap (indent : Nat) : List Char := List.replicate (2 * indent) ' '

mutual

/-- `JSON.stringify(v, null, 2)` at nesting depth `indent`, as a character
list. -/
def printVal : JValue → Nat → List Char
  | .null, _ => ['n', 'u', 'l', 'l']
  | .bool true, _ => ['t', 'r', 'u', 'e']
  | .bool false, _ => ['f', 'a', 'l', 's', 'e']
  | .num i, _ => intChars i
  | .str s, _ => quoteChars s
  | .arr [], _ => ['[', ']']
  | .arr (v :: vs), indent =>
    '[' :: '\n' :: printElems v vs (indent + 1) ++ '\n' :: gap indent ++ [']']
  | .obj [], _ => ['{', '}']
  | .obj (m :: ms), indent =>
    '{' :: '\n' :: printMems m ms (indent + 1) ++ '\n' :: gap indent ++ ['}']
termination_by v _ => sizeOf v
decreasing_by all_goals (simp_wf <;> omega)

/-- Array elements, each on its own indented line, comma-separated. -/
def printElems : JValue → List JValue → Nat → List Char
  | v, [], indent => gap indent ++ printVal v indent
  | v, w :: vs, indent =>
    gap indent ++ printVal v indent ++ ',' :: '\n' :: printElems w vs indent
termination_by v vs _ => 1 + sizeOf v + sizeOf vs
decreasing_by all_goals (simp_wf <;> omega)

/-- Object members `"key": value`, each on its own indented line. -/
def printMems : String × JValue → List (String × JValue) → Nat → List Char
  | (k, v), [], indent => gap indent ++ quoteChars k ++ ':' :: ' ' :: printVal v indent
  | (k, v), m :: ms, indent =>
    gap indent ++ quoteChars k ++ ':' :: ' ' :: printVal v indent ++
      ',' :: '\n' :: printMems m ms indent
termination_by m ms _ => 1 + sizeOf m + sizeOf ms
decreasing_by all_goals (simp_wf <;> omega)

end

/-- `JSON.stringify(v, null, 2)` — what `#writeAtomic` writes to the temp
file. -/
def stringify (v : JValue) : String := String.mk (printVal v 0)

/-! ## Lexer — the token layer of `JSON.parse` -/

/-- JSON tokens. -/
inductive Tok where
  | lbrace | rbrace | lbrack | rbrack | colon | comma
  | tstr (s : String) | tnum (n : Int) | tnull | ttrue | tfalse
deriving DecidableEq

/-- Decode a single-character JSON escape (`\"`, `\\`, `\/`, `\b`, `\t`,
`\n`, `\f`, `\r`). -/
def unescEsc1 (e : Char) : Option Char :=
  if e = '"' then some '"'
  else if e = '\\' then some '\\'
  else if e = '/' then some '/'
  else if e = 'b' then some (Char.ofNat 8)
  else if e = 't' then some (Char.ofNat 9)
  else if e = 'n' then some (Char.ofNat 10)
  else if e = 'f' then some (Char.ofNat 12)
  else if e = 'r' then some (Char.ofNat 13)
  else none

/-- Decode the four hex digits of a `\uXXXX` escape. -/
def unescHex4 : List Char → Option (Option Char × List Char)
  | h3 :: h2 :: h1 :: h0 :: rest =>
    if isHexChar h3 && isHexChar h2 && isHexChar h1 && isHexChar h0 then
      some (some (Char.ofNat
        (hexVal h3 * 4096 + hexVal h2 * 256 + hexVal h1 * 16 + hexVal h0)),
        rest)
    else none
  | _ => none

/-- Decode what follows a backslash inside a string literal. -/
def unescEscape : List Char → Option (Option Char × List Char)
  | [] => none
  | e :: rest =>
    if e = 'u' then unescHex4 rest
    else (unescEsc1 e).map (fun c => (some c, rest))

/-- Consume one logical character of a string literal's body: `none` is a
lexical error, `some (none, rest)` the closing quote, `some (some c, rest)`
a (possibly escaped) content character, unescaped as `JSON.parse` does. -/
def unescapeHead : List Char → Option (Option Char × List Char)
  | [] => none
  | c :: rest =>
    if c = '"' then some (none, rest)
    else if c = '\\' then unescEscape rest
    else if c.toNat < 32 then none
    else some (some c, rest)

theorem unescHex4_length {cs : List Char} {oc rest}
    (h : unescHex4 cs = some (oc, rest)) : rest.length + 4 = cs.length := by
  match cs with
  | h3 :: h2 :: h1 :: h0 :: tl =>
    rw [unescHex4] at h
    split at h
    · simp only [Option.some.injEq, Prod.mk.injEq] at h
      rw [← h.2]; simp
    · exact Option.noConfusion h
  | [] => exact Option.noConfusion h
  | [_] => exact Option.noConfusion h
  | [_, _] => exact Option.noConfusion h
  | [_, _, _] => exact Option.noConfusion h

theorem unescEscape_length {cs : List Char} {oc rest}
    (h : unescEscape cs = some (oc, rest)) : rest.length < cs.length := by
  match cs with
  | [] => exact Option.noConfusion h
  | e :: tl =>
    rw [unescEscape] at h
    split at h
    · have := unescHex4_length h
      simp only [List.length_cons]; omega
    · rcases Option.map_eq_some'.mp h with ⟨c, -, hc⟩
      rw [show rest = tl from (congrArg Prod.snd hc).symm]
      simp

theorem unescapeHead_length {cs : List Char} {oc rest}
    (h : unescapeHead cs = some (oc, rest)) : rest.length < cs.length := by
  match cs with
  | [] => exact Option.noConfusion h
  | c :: tl =>
    rw [unescapeHead] at h
    split at h
    · simp only [Option.some.injEq, Prod.mk.injEq] at h
      rw [← h.2]; simp
    · split at h
      · exact Nat.lt_trans (unescEscape_length h) (by simp)
      · split at h
        · exact Option.noConfusion h
        · simp only [Option.some.injEq, Prod.mk.injEq] at h
          rw [← h.2]; simp

/-- Lex the body of a string literal (the opening quote already
consumed); returns the string and the input after the closing quote. -/
def lexStr (acc : List Char) (cs : List Char) : Option (String × List Char) :=
  match h : unescapeHead cs with
  | none => none
  | some (none, rest) => some (String.mk acc.reverse, rest)
  | some (some c, rest) => lexStr (c :: acc) rest
termination_by cs.length
decreasing_by exact unescapeHead_length h

/-- A successful `lexStr` consumes at least the closing quote. -/
theorem lexStr_length {acc cs s r} (h : lexStr acc cs = some (s, r)) :
    r.length < cs.length := by
  rw [lexStr] at h
  split at h
  · exact absurd h (by simp)
  · rename_i heq
    simp only [Option.some.injEq, Prod.mk.injEq] at h
    rw [← h.2]
    exact unescapeHead_length heq
  · rename_i c rest heq
    exact Nat.lt_trans (lexStr_length h) (unescapeHead_length heq)
termination_by cs.length
decreasing_by exact unescapeHead_length (by assumption)

theorem length_dropWhile_le (p : Char → Bool) (l : List Char) :
    (l.dropWhile p).length ≤ l.length :=
  (List.dropWhile_suffix p).sublist.length_le

def isWsChar (c : Char) : Bool := c = ' ' || c = '\n' || c = '\t' || c = '\r'

/-- Single-character punctuation tokens. -/
def lexPunct (c : Char) : Option Tok :=
  if c = '{' then some .lbrace
  else if c = '}' then some .rbrace
  else if c = '[' then some .lbrack
  else if c = ']' then some .rbrack
  else if c = ':' then some .colon
  else if c = ',' then some .comma
  else none

/-- The three keyword tokens. -/
def lexKeyword (cs : List Char) : Option (Tok × List Char) :=
  if cs.take 4 = ['n', 'u', 'l', 'l'] then some (.tnull, cs.drop 4)
  else if cs.take 4 = ['t', 'r', 'u', 'e'] then some (.ttrue, cs.drop 4)
  else if cs.take 5 = ['f', 'a', 'l', 's', 'e'] then some (.tfalse, cs.drop 5)
  else none

/-- A keyword consumes at least four characters. -/
theorem lexKeyword_length {cs : List Char} {t : Tok} {rest : List Char}
    (h : lexKeyword cs = some (t, rest)) : rest.length + 4 ≤ cs.length := by
  rw [lexKeyword] at h
  split at h
  · rename_i htake
    have h4 : cs.length ≥ 4 := by
      have := congrArg List.length htake
      simp [List.length_take] at this
      omega
    simp only [Option.some.injEq, Prod.mk.injEq] at h
    rw [← h.2, List.length_drop]
    omega
  · split at h
    · rename_i htake
      have h4 : cs.length ≥ 4 := by
        have := congrArg List.length htake
        simp [List.length_take] at this
        omega
      simp only [Option.some.injEq, Prod.mk.injEq] at h
      rw [← h.2, List.length_drop]
      omega
    · split at h
      · rename_i htake
        have h5 : cs.length ≥ 5 := by
          have := congrArg List.length htake
          simp [List.length_take] at this
          omega
        simp only [Option.some.injEq, Prod.mk.injEq] at h
        rw [← h.2, List.length_drop]
        omega
      · simp at h

/-- Lex one token after skipping whitespace: `some (none, _)` is a clean
end of input, `some (some t, rest)` a token, `none` a lexical error.
Numbers outside the integral fragment (fractions, exponents) are
rejected, matching the model's restriction of JSON numbers to
integers. -/
def lexTok1 (cs : List Char) : Option (Option Tok × List Char) :=
  match cs.dropWhile isWsChar with
  | [] => some (none, [])
  | c :: rest =>
    match lexPunct c with
    | some t => some (some t, rest)
    | none =>
      if c = '"' then (lexStr [] rest).map (fun p => (some (.tstr p.1), p.2))
      else if c = '-' then
        match rest with
        | d :: rest2 =>
          if isDigitChar d then
            some (some (.tnum (-(decodeDigits (d :: rest2.takeWhile isDigitChar)))),
              rest2.dropWhile isDigitChar)
          else none
        | [] => none
      else if isDigitChar c then
        some (some (.tnum (decodeDigits (c :: rest.takeWhile isDigitChar))),
          rest.dropWhile isDigitChar)
      else
        match lexKeyword (c :: rest) with
        | some (t, rest2) => some (some t, rest2)
        | none => none

/-- A lexed token consumes at least one character. -/
theorem lexTok1_length {cs : List Char} {t : Tok} {rest : List Char}
    (h : lexTok1 cs = some (some t, rest)) : rest.length < cs.length := by
  have hdw := length_dropWhile_le isWsChar cs
  rw [lexTok1] at h
  split at h
  · simp at h
  · rename_i c rest0 hdrop
    rw [hdrop] at hdw
    simp only [List.length_cons] at hdw
    split at h
    · simp only [Option.some.injEq, Prod.mk.injEq] at h
      rw [← h.2]
      omega
    · split at h
      · rcases hs : lexStr [] rest0 with _ | ⟨str2, rest2⟩
        · rw [hs] at h
          simp at h
        · rw [hs] at h
          simp only [Option.map_some', Option.some.injEq, Prod.mk.injEq] at h
          rw [← h.2]
          have := lexStr_length hs
          omega
      · split at h
        · split at h
          · split at h
            · simp only [Option.some.injEq, Prod.mk.injEq] at h
              rename_i d rest2 _
              rw [← h.2]
              have := length_dropWhile_le isDigitChar rest2
              simp only [List.length_cons] at hdw
              omega
            · simp at h
          · simp at h
        · split at h
          · simp only [Option.some.injEq, Prod.mk.injEq] at h
            rw [← h.2]
            have := length_dropWhile_le isDigitChar rest0
            omega
          · split at h
            · rename_i t2 rest2 hkw
              simp only [Option.some.injEq, Prod.mk.injEq] at h
              have hlen2 := lexKeyword_length hkw
              rw [← h.2]
              simp only [List.length_cons] at hlen2
              omega
            · simp at h

/-- Tokenizer: lex tokens until clean end of input. -/
def lexToks (cs : List Char) : Option (List Tok) :=
  match h : lexTok1 cs with
  | none => none
  | some (none, _) => some []
  | some (some t, rest) => (lexToks rest).map (t :: ·)
termination_by cs.length
decreasing_by exact lexTok1_length h

theorem lexToks_step_none {cs : List Char} (h : lexTok1 cs = none) :
    lexToks cs = none := by
  rw [lexToks]
  split
  · rfl
  · rename_i r heq
    rw [h] at heq
    cases heq
  · rename_i t r heq
    rw [h] at heq
    cases heq

theorem lexToks_step_eof {cs r : List Char} (h : lexTok1 cs = some (none, r)) :
    lexToks cs = some [] := by
  rw [lexToks]
  split
  · rename_i heq
    rw [h] at heq
    cases heq
  · rfl
  · rename_i t r2 heq
    rw [h] at heq
    cases heq

theorem lexToks_step_cons {cs : List Char} {t : Tok} {rest : List Char}
    (h : lexTok1 cs = some (some t, rest)) :
    lexToks cs = (lexToks rest).map (t :: ·) := by
  rw [lexToks]
  split
  · rename_i heq
    rw [h] at heq
    cases heq
  · rename_i r heq
    rw [h] at heq
    cases heq
  · rename_i t2 r2 heq
    rw [h] at heq
    cases heq
    rfl

/-- Tokenizations agree whenever the first lexed token agrees. -/
theorem lexToks_congr {a b : List Char} (h : lexTok1 a = lexTok1 b) :
    lexToks a = lexToks b := by
  rcases hb : lexTok1 b with _ | ⟨_ | t, rest⟩
  · rw [lexToks_step_none (h.trans hb), lexToks_step_none hb]
  · rw [lexToks_step_eof (h.trans hb), lexToks_step_eof hb]
  · rw [lexToks_step_cons (h.trans hb), lexToks_step_cons hb]

/-! ## Parser — the grammar layer of `JSON.parse` -/

mutual

/-- Parse one JSON value from a token stream; `fuel` bounds the recursion
depth (any `fuel ≥ jsize` of the value works, see `parseVal_spec`). -/
def parseVal : Nat → List Tok → Option (JValue × List Tok)
  | 0, _ => none
  | _ + 1, .tnull :: rest => some (.null, rest)
  | _ + 1, .ttrue :: rest => some (.bool true, rest)
  | _ + 1, .tfalse :: rest => some (.bool false, rest)
  | _ + 1, .tnum n :: rest => some (.num n, rest)
  | _ + 1, .tstr s :: rest => some (.str s, rest)
  | fuel + 1, .lbrack :: rest =>
    if rest.head? = some .rbrack then some (.arr [], rest.tail)
    else
      match parseVal fuel rest with
      | some (v, r1) =>
        match parseArrTail fuel r1 with
        | some (vs, r2) => some (.arr (v :: vs), r2)
        | none => none
      | none => none
  | fuel + 1, .lbrace :: rest =>
    if rest.head? = some .rbrace then some (.obj [], rest.tail)
    else
      match rest with
      | .tstr k :: .colon :: r =>
        match parseVal fuel r with
        | some (v, r1) =>
          match parseObjTail fuel r1 with
          | some (ms, r2) => some (.obj ((k, v) :: ms), r2)
          | none => none
        | none => none
      | _ => none
  | _ + 1, _ => none

/-- Parse the continuation of an array: either `]` or `, value …`. -/
def parseArrTail : Nat → List Tok → Option (List JValue × List Tok)
  | 0, _ => none
  | _ + 1, .rbrack :: r => some ([], r)
  | fuel + 1, .comma :: r =>
    match parseVal fuel r with
    | some (v, r1) =>
      match parseArrTail fuel r1 with
      | some (vs, r2) => some (v :: vs, r2)
      | none => none
    | none => none
  | _ + 1, _ => none

/-- Parse the continuation of an object: either `}` or `, "key": value …`. -/
def parseObjTail : Nat → List Tok → Option (List (String × JValue) × List Tok)
  | 0, _ => none
  | _ + 1, .rbrace :: r => some ([], r)
  | fuel + 1, .comma :: .tstr k :: .colon :: r =>
    match parseVal fuel r with
    | some (v, r1) =>
      match parseObjTail fuel r1 with
      | some (ms, r2) => some ((k, v) :: ms, r2)
      | none => none
    | none => none
  | _ + 1, _ => none

end

/-- `JSON.parse`: lex, then parse a single value that must exhaust the
input.  `none` models a thrown `SyntaxError`. -/
def parseJSON (s : String) : Option JValue :=
  match lexToks s.data with
  | none => none
  | some toks =>
    match parseVal (s.length + 1) toks with
    | some (v, []) => some v
    | _ => none

/-! ## Errors -/

/-- JS error values the store's code paths produce or re-throw. -/
inductive JErr where
  /-- A file-system error whose `code` is `"ENOENT"`. -/
  | enoent (path : String) : JErr
  /-- An injected I/O failure (any non-`ENOENT` `fs` error). -/
  | ioFault (op : String) (path : String) : JErr
  /-- `new Error(msg)`. -/
  | jsError (msg : String) : JErr
  /-- `new Error(msg, { cause })`. -/
  | jsErrorCause (msg : String) (cause : JErr) : JErr
deriving DecidableEq

/-! ## File-system and fault model

The store uses `access`, `open`/`writeFile`/`sync`/`close`, `readFile`,
`rename` and `unlink` from `node:fs/promises`.  The file system is a map
from paths to contents plus the set of existing directories; `Faults`
injects a failure into each fallible step of one `#writeAtomic` call. -/

structure FS where
  dirs : List String
  files : List (String × String)
deriving DecidableEq

def setAssoc : List (String × String) → String → String → List (String × String)
  | [], k, v => [(k, v)]
  | (k', v') :: tl, k, v =>
    if k' = k then (k, v) :: tl else (k', v') :: setAssoc tl k v

def removeAssoc : List (String × String) → String → List (String × String)
  | [], _ => []
  | (k', v') :: tl, k =>
    if k' = k then removeAssoc tl k else (k', v') :: removeAssoc tl k

def getAssoc {α : Type} : List (String × α) → String → Option α
  | [], _ => none
  | (k', v') :: tl, k => if k' = k then some v' else getAssoc tl k

/-- Content of the file at `p`, `none` when absent (a read raises
`ENOENT`). -/
def FS.read (fs : FS) (p : String) : Option String := getAssoc fs.files p

def FS.write (fs : FS) (p c : String) : FS :=
  { fs with files := setAssoc fs.files p c }

def FS.remove (fs : FS) (p : String) : FS :=
  { fs with files := removeAssoc fs.files p }

/-- Injected failures for the fallible steps of one atomic write.  A set
flag makes the corresponding `fs` call reject. -/
structure Faults where
  openFail : Bool
  writeFail : Bool
  syncFail : Bool
  closeFail : Bool
  renameFail : Bool
  unlinkFail : Bool
deriving DecidableEq

/-- No injected failures. -/
def noFaults : Faults :=
  { openFail := false, writeFail := false, syncFail := false,
    closeFail := false, renameFail := false, unlinkFail := false }

/-- `` `${this.#filePath}.${randomUUID()}.tmp` `` — the temp-file name of
`#writeAtomic`; `uuid` models the `randomUUID()` draw. -/
def tmpName (filePath uuid : String) : String :=
  filePath ++ "." ++ uuid ++ ".tmp"

/-- `JSONStore.#writeAtomic(data)`: open a temp file, write the
serialized document, fsync, close (a `finally`, whose failure replaces
the body's), rename over the target; on any failure unlink the temp file
best-effort (`unlink` errors swallowed) and re-throw the original error. -/
def writeAtomic (filePath uuid : String) (data : JValue) (fl : Faults) (fs : FS) :
    Option JErr × FS :=
  let tmpPath := tmpName filePath uuid
  if fl.openFail then
    -- `open` itself failed: the temp file was never created; the outer
    -- catch still attempts `unlink` (ENOENT swallowed) and re-throws.
    (some (.ioFault "open" tmpPath),
      if fl.unlinkFail then fs else fs.remove tmpPath)
  else
    -- const handle = await open(tmpPath, "w") — creates/truncates
    let fs1 := fs.write tmpPath ""
    -- try { await handle.writeFile(JSON.stringify(data, null, 2)); await handle.sync() }
    let body : Option JErr × FS :=
      if fl.writeFail then (some (.ioFault "write" tmpPath), fs1)
      else
        let fs2 := fs1.write tmpPath (stringify data)
        if fl.syncFail then (some (.ioFault "fsync" tmpPath), fs2)
        else (none, fs2)
    -- finally { await handle.close() } — an error thrown here replaces the body's
    let tryErr : Option JErr :=
      if fl.closeFail then some (.ioFault "close" tmpPath) else body.1
    match tryErr with
    | some e =>
      (some e, if fl.unlinkFail then body.2 else body.2.remove tmpPath)
    | none =>
      -- await rename(tmpPath, this.#filePath)
      if fl.renameFail then
        (some (.ioFault "rename" tmpPath),
          if fl.unlinkFail then body.2 else body.2.remove tmpPath)
      else
        match body.2.read tmpPath with
        | some content => (none, (body.2.remove tmpPath).write filePath content)
        | none =>
          (some (.enoent tmpPath),
            if fl.unlinkFail then body.2 else body.2.remove tmpPath)

/-! ## `path.dirname` (POSIX), as `load` uses it -/

/-- Scan of `path.posix.dirname`: indices `len-1 .. 1` from the end,
skipping trailing slashes, stopping at the next slash. -/
def dirnameFindEnd : List Char → Nat → Bool → Option Nat
  | [], _, _ => none
  | c :: tl, i, matchedSlash =>
    if c = '/' then
      if matchedSlash then dirnameFindEnd tl (i - 1) matchedSlash else some i
    else dirnameFindEnd tl (i - 1) false

/-- `path.posix.dirname`. -/
def dirnameStr (p : String) : String :=
  match p.data with
  | [] => "."
  | c0 :: tl =>
    let hasRoot := c0 = '/'
    match dirnameFindEnd tl.reverse (p.data.length - 1) true with
    | none => if hasRoot then "/" else "."
    | some e =>
      if hasRoot && e = 1 then "//" else String.mk (p.data.take e)

/-! ## The document store (second `JSONStore` class) -/

/-- The state of a `JSONStore` instance: `#filePath`, `#data`,
`#initialized`, `#dirty`, and `#defaultFactory` modelled by the value it
returns. -/
structure Store where
  filePath : String
  data : JValue
  initialized : Bool
  dirty : Bool
  defaultData : JValue

/-- `new JSONStore(filePath, { defaultFactory })`: `#data` starts as
`#defaultFactory()`. -/
def Store.new (filePath : String) (defaultData : JValue) : Store :=
  { filePath := filePath, data := defaultData, initialized := false,
    dirty := false, defaultData := defaultData }

def notInitMsg : String := "JSONStore not initialized. Call load() first."

def dirMissingMsg (dir : String) : String := "Directory does not exist: " ++ dir

/-- The message of the wrapped parse failure.  The embedded suffix stands
for the engine-specific `SyntaxError` message interpolated by the source. -/
def parseFailMsg (fp : String) : String :=
  "Failed to parse JSON from " ++ fp ++ ": " ++ "SyntaxError"

def fileMissingMsg (fp : String) : String := "File does not exist: " ++ fp

def parseErrOf (fp : String) : JErr :=
  .jsErrorCause (parseFailMsg fp) (.jsError "SyntaxError")

/-- `JSONStore.#readOrCreateDefault()`: read and parse the file; on
`ENOENT` write a fresh default document atomically and return it. -/
def readOrCreateDefault (st : Store) (uuid : String) (fl : Faults) (fs : FS) :
    Except JErr JValue × FS :=
  match fs.read st.filePath with
  | some content =>
    match parseJSON content with
    | some v => (.ok v, fs)
    | none => (.error (parseErrOf st.filePath), fs)
  | none =>
    -- File doesn't exist - create with defaults
    let r := writeAtomic st.filePath uuid st.defaultData fl fs
    match r.1 with
    | some e => (.error e, r.2)
    | none => (.ok st.defaultData, r.2)

/-- `JSONStore.load()`: check the parent directory, read or create the
default, then adopt the data with `initialized := true, dirty := false`. -/
def Store.load (st : Store) (uuid : String) (fl : Faults) (fs : FS) :
    Option JErr × Store × FS :=
  if fs.dirs.contains (dirnameStr st.filePath) = false then
    (some (.jsError (dirMissingMsg (dirnameStr st.filePath))), st, fs)
  else
    match readOrCreateDefault st uuid fl fs with
    | (.error e, fs1) => (some e, st, fs1)
    | (.ok v, fs1) =>
      (none, { st with data := v, initialized := true, dirty := false }, fs1)

/-- `JSONStore.reload()`: requires initialization; a missing file is a
hard failure (`File does not exist`), never auto-creation; state is
replaced only after a successful parse. -/
def Store.reload (st : Store) (fs : FS) : Option JErr × Store × FS :=
  if st.initialized = false then (some (.jsError notInitMsg), st, fs)
  else
    match fs.read st.filePath with
    | none =>
      (some (.jsErrorCause (fileMissingMsg st.filePath) (.enoent st.filePath)),
        st, fs)
    | some content =>
      match parseJSON content with
      | none => (some (parseErrOf st.filePath), st, fs)
      | some v => (none, { st with data := v, dirty := false }, fs)

/-- `JSONStore.save()`: atomic write of the current data; `dirty`
cleared only on success. -/
def Store.save (st : Store) (uuid : String) (fl : Faults) (fs : FS) :
    Option JErr × Store × FS :=
  if st.initialized = false then (some (.jsError notInitMsg), st, fs)
  else
    match writeAtomic st.filePath uuid st.data fl fs with
    | (some e, fs1) => (some e, st, fs1)
    | (none, fs1) => (none, { st with dirty := false }, fs1)

/-! ## `update` / `updateAndSave` -/

/-- The `updater` argument of `update`/`updateAndSave`: either a partial
document (an object, shallow-merged one level deep) or a mutator
function.  A mutator receives a private clone; its mutations are modelled
by the returned value, a throw by `.error`. -/
inductive Updater where
  | patch (fields : List (String × JValue)) : Updater
  | mutate (f : JValue → Except JErr JValue) : Updater

/-- Own enumerable string-keyed properties, as object spread `{...x}`
enumerates them for the JSON fragment: objects yield their fields, arrays
their indices, strings their character positions, primitives nothing. -/
def spreadFields : JValue → List (String × JValue)
  | .obj fields => fields
  | .arr xs => xs.enum.map fun p => (String.mk (natChars p.1), p.2)
  | .str s => s.data.enum.map fun p => (String.mk (natChars p.1), .str (String.mk [p.2]))
  | _ => []

/-- Insert a property as JS object assignment does: an existing key keeps
its position and gets the new value, a fresh key is appended. -/
def insertField : List (String × JValue) → String → JValue → List (String × JValue)
  | [], k, v => [(k, v)]
  | (k', v') :: tl, k, v =>
    if k' = k then (k, v) :: tl else (k', v') :: insertField tl k v

/-- Build an object by inserting each binding in order (how an object
literal accumulates its spreads). -/
def objAssign (a b : List (String × JValue)) : List (String × JValue) :=
  b.foldl (fun acc kv => insertField acc kv.1 kv.2) a

/-- `{ ...data, ...updater }`: one-level shallow merge; values from the
partial replace existing ones wholesale. -/
def spreadMerge (data : JValue) (patchFields : List (String × JValue)) : JValue :=
  .obj (objAssign (objAssign [] (spreadFields data)) patchFields)

/-- `JSONStore.update(updater)`: synchronous, not queue-protected; a
mutator works on a private clone adopted only if it returns without
throwing; sets `dirty := true` on success. -/
def Store.update (st : Store) (u : Updater) : Option JErr × Store :=
  if st.initialized = false then (some (.jsError notInitMsg), st)
  else
    match u with
    | .mutate f =>
      -- const cloned = structuredClone(this.#data); updater(cloned); this.#data = cloned
      match f st.data with
      | .error e => (some e, st)
      | .ok cloned => (none, { st with data := cloned, dirty := true })
    | .patch p =>
      (none, { st with data := spreadMerge st.data p, dirty := true })

/-- `JSONStore.updateAndSave(updater)`: snapshot, mutate/merge, write
atomically; on any failure restore the snapshot and re-throw; clear
`dirty` only when the write succeeded. -/
def Store.updateAndSave (st : Store) (u : Updater) (uuid : String) (fl : Faults)
    (fs : FS) : Option JErr × Store × FS :=
  if st.initialized = false then (some (.jsError notInitMsg), st, fs)
  else
    -- const backup = structuredClone(this.#data)
    let backup := st.data
    let applied : Except JErr JValue :=
      match u with
      | .mutate f => f st.data
      | .patch p => .ok (spreadMerge st.data p)
    match applied with
    | .error e => (some e, { st with data := backup }, fs)
    | .ok newData =>
      match writeAtomic st.filePath uuid newData fl fs with
      | (some e, fs1) => (some e, { st with data := backup }, fs1)
      | (none, fs1) => (none, { st with data := newData, dirty := false }, fs1)

/-! ## Path keys and validation -/

/-- A JS number as the path API receives it. -/
inductive JSNum where
  | int (n : Int) : JSNum
  | nan : JSNum
  | inf : JSNum
  | negInf : JSNum
deriving DecidableEq

/-- An unknown key as passed to the path operations: a string, a number,
or any other JS value carrying its `typeof` name. -/
inductive UKey where
  | str (s : String) : UKey
  | num (v : JSNum) : UKey
  | other (typeName : String) : UKey
deriving DecidableEq

/-- A key that passed `#validateKeys`. -/
inductive JKey where
  | str (s : String) : JKey
  | idx (n : Int) : JKey
deriving DecidableEq

/-- JS `String(n)` for the modelled numbers. -/
def numToString : JSNum → String
  | .int n => String.mk (intChars n)
  | .nan => "NaN"
  | .inf => "Infinity"
  | .negInf => "-Infinity"

def invalidKeyNumMsg (i : Nat) (v : JSNum) : String :=
  "Invalid key at index " ++ String.mk (natChars i) ++
    ": numbers must be finite (got " ++ numToString v ++ ")"

def invalidKeyTypeMsg (i : Nat) (typeName : String) : String :=
  "Invalid key at index " ++ String.mk (natChars i) ++
    ": expected string or number, got " ++ typeName

/-- The loop of `#validateKeys`, from position `i`. -/
def validateKeysAux : Nat → List UKey → Except JErr (List JKey)
  | _, [] => .ok []
  | i, k :: tl =>
    match k with
    | .num (.int n) => (validateKeysAux (i + 1) tl).map (.idx n :: ·)
    | .num v => .error (.jsError (invalidKeyNumMsg i v))
    | .str s => (validateKeysAux (i + 1) tl).map (.str s :: ·)
    | .other t => .error (.jsError (invalidKeyTypeMsg i t))

/-- `JSONStore.#validateKeys(keys)`: every key must be a string or a
finite number; the first offender aborts with its index. -/
def validateKeys (keys : List UKey) : Except JErr (List JKey) :=
  validateKeysAux 0 keys

/-! ## Path formatting for error messages -/

/-- First character of `^[a-zA-Z_$][a-zA-Z0-9_$]*$`. -/
def isIdentStart (c : Char) : Bool :=
  (('a' ≤ c && c ≤ 'z') || ('A' ≤ c && c ≤ 'Z')) || c = '_' || c = '$'

def isIdentRest (c : Char) : Bool := isIdentStart c || ('0' ≤ c && c ≤ '9')

/-- The identifier test `/^[a-zA-Z_$][a-zA-Z0-9_$]*$/.test(key)`. -/
def isIdentName (s : String) : Bool :=
  match s.data with
  | [] => false
  | c :: tl => isIdentStart c && tl.all isIdentRest

/-- `JSON.stringify(k)` for a single validated key, as `#setAtPath` uses
in its suggested corrective call. -/
def jsonStringifyKey : JKey → String
  | .str s => String.mk (quoteChars s)
  | .idx n => String.mk (intChars n)

/-- The accumulating loop of `#formatPath`. -/
def formatPathAux (res : String) : List JKey → String
  | [] => res
  | k :: tl =>
    let res2 :=
      match k with
      | .idx n => res ++ "[" ++ String.mk (intChars n) ++ "]"
      | .str s =>
        if isIdentName s then (if res = "" then s else res ++ "." ++ s)
        else res ++ "[" ++ String.mk (quoteChars s) ++ "]"
    formatPathAux res2 tl

/-- `JSONStore.#formatPath(keys)`: dot notation for identifier-like
string keys, bracket notation for numbers and other strings. -/
def formatPath : List JKey → String
  | [] => "(empty path)"
  | k :: tl => formatPathAux "" (k :: tl)

def joinCommaSpace : List String → String
  | [] => ""
  | [s] => s
  | s :: tl => s ++ ", " ++ joinCommaSpace tl

def arrayAutoCreateMsg (pathKeys : List JKey) : String :=
  "Cannot auto-create array at '" ++ formatPath pathKeys ++ "'. " ++
    "Initialize it first with setPath([" ++
    joinCommaSpace (pathKeys.map jsonStringifyKey) ++ "], [])"

def traverseMsg (pathKeys : List JKey) : String :=
  "Cannot traverse through non-object at '" ++ formatPath pathKeys ++ "'"

/-! ## Property access on JSON values

The modelled fragment covers the accesses the store's claims exercise:
object properties (numeric keys read/write the property named by their
decimal string, as JS coerces them) and array index reads/writes.  JS
array exotica — string-keyed access of arrays (`"0"`, `"length"`),
negative or non-index properties (invisible to `JSON.stringify`) — and
strict-mode `TypeError` on primitive targets sit outside the fragment;
no claim depends on them. -/

def getKey : JValue → JKey → Option JValue
  | .obj fields, .str s => getAssoc fields s
  | .obj fields, .idx n => getAssoc fields (String.mk (intChars n))
  | .arr xs, .idx n => if n < 0 then none else xs[n.toNat]?
  | _, _ => none

/-- JS array index assignment: in-range replaces; beyond-length pads with
holes, which `JSON.stringify` serializes as `null`. -/
def setIdx (xs : List JValue) (i : Nat) (v : JValue) : List JValue :=
  if i < xs.length then xs.set i v
  else xs ++ List.replicate (i - xs.length) .null ++ [v]

def setKey : JValue → JKey → JValue → JValue
  | .obj fields, .str s, v => .obj (insertField fields s v)
  | .obj fields, .idx n, v => .obj (insertField fields (String.mk (intChars n)) v)
  | .arr xs, .idx n, v => if n < 0 then .arr xs else .arr (setIdx xs n.toNat v)
  | .arr xs, .str _, _ => .arr xs
  | c, _, _ => c

/-! ## `#setAtPath`, `setPath`, `setPathAndSave`, `getPath`, `hasPath` -/

/-- The walk of `#setAtPath(data, keys, value)` with the already-walked
prefix `pfx` (for error messages).  Mirrors the source loop: a nullish
`current[key]` is either refused (numeric next key) or replaced by `{}`;
an existing non-container aborts traversal; the final key is assigned. -/
def setAtPathAux (pfx : List JKey) (cur : JValue) (keys : List JKey)
    (value : JValue) : Except JErr JValue :=
  match keys with
  | [] => .ok cur
  | [k] => .ok (setKey cur k value)
  | k :: nk :: rest =>
    match getKey cur k with
    | some (.obj fields) =>
      (setAtPathAux (pfx ++ [k]) (.obj fields) (nk :: rest) value).map (setKey cur k)
    | some (.arr xs) =>
      (setAtPathAux (pfx ++ [k]) (.arr xs) (nk :: rest) value).map (setKey cur k)
    | some .null | none =>
      -- `current[key] == null`: absent or an explicitly stored null
      match nk with
      | .idx _ => .error (.jsError (arrayAutoCreateMsg (pfx ++ [k])))
      | .str _ =>
        -- current[key] = {}; traversal check passes on the fresh mapping
        (setAtPathAux (pfx ++ [k]) (.obj []) (nk :: rest) value).map (setKey cur k)
    | some _ => .error (.jsError (traverseMsg (pfx ++ [k])))

def setAtPath (data : JValue) (keys : List JKey) (value : JValue) :
    Except JErr JValue :=
  setAtPathAux [] data keys value

def emptyPathMsg : String := "Path cannot be empty"

/-- `JSONStore.setPath(keys, value)`: validate, reject an empty path,
then `update` with a mutator running `#setAtPath` on the clone. -/
def Store.setPath (st : Store) (keys : List UKey) (value : JValue) :
    Option JErr × Store :=
  match validateKeys keys with
  | .error e => (some e, st)
  | .ok validKeys =>
    if validKeys.length = 0 then (some (.jsError emptyPathMsg), st)
    else st.update (.mutate fun data => setAtPath data validKeys value)

/-- `JSONStore.setPathAndSave(keys, value)`: validate, reject an empty
path, then `updateAndSave` with the same mutator. -/
def Store.setPathAndSave (st : Store) (keys : List UKey) (value : JValue)
    (uuid : String) (fl : Faults) (fs : FS) : Option JErr × Store × FS :=
  match validateKeys keys with
  | .error e => (some e, st, fs)
  | .ok validKeys =>
    if validKeys.length = 0 then (some (.jsError emptyPathMsg), st, fs)
    else st.updateAndSave (.mutate fun data => setAtPath data validKeys value) uuid fl fs

/-- The walk of `getPath`: return `undefined` as soon as the current
value is not a traversable container; an absent property yields
`undefined` for the remaining walk. -/
def getPathAux : JValue → List JKey → Option JValue
  | cur, [] => some cur
  | cur, k :: tl =>
    match cur with
    | .obj fields =>
      match getKey (.obj fields) k with
      | some nxt => getPathAux nxt tl
      | none => none
    | .arr xs =>
      match getKey (.arr xs) k with
      | some nxt => getPathAux nxt tl
      | none => none
    | _ => none

/-- `JSONStore.getPath(...keys)`: `none` models `undefined`. -/
def Store.getPath (st : Store) (keys : List UKey) : Except JErr (Option JValue) :=
  if st.initialized = false then .error (.jsError notInitMsg)
  else
    match validateKeys keys with
    | .error e => .error e
    | .ok validKeys => .ok (getPathAux st.data validKeys)

/-- `JSONStore.hasPath(...keys)`: the value at the path is not
`undefined`. -/
def Store.hasPath (st : Store) (keys : List UKey) : Except JErr Bool :=
  (st.getPath keys).map (·.isSome)

/-! ## The first `JSONStore` class (lines 64–368)

Same state shape; `#writeAtomic` takes no argument and reads `this.#data`,
so `load` temporarily swaps the default in and restores it if the write
fails; `reload` propagates a missing-file `ENOENT` un-wrapped;
`updateAndSave` backs up by reference instead of by clone. -/

namespace V1

/-- `V1.load()`: inline read/parse with ENOENT fallback that temporarily
sets `#data` for the argument-less `#writeAtomic`, restoring it on write
failure. -/
def load (st : Store) (uuid : String) (fl : Faults) (fs : FS) :
    Option JErr × Store × FS :=
  if fs.dirs.contains (dirnameStr st.filePath) = false then
    (some (.jsError (dirMissingMsg (dirnameStr st.filePath))), st, fs)
  else
    match fs.read st.filePath with
    | some content =>
      match parseJSON content with
      | some v =>
        (none, { st with data := v, initialized := true, dirty := false }, fs)
      | none => (some (parseErrOf st.filePath), st, fs)
    | none =>
      -- loadedData = this.#defaultFactory()
      -- originalData = this.#data; this.#data = loadedData
      let loadedData := st.defaultData
      let originalData := st.data
      let st1 := { st with data := loadedData }
      match writeAtomic st1.filePath uuid st1.data fl fs with
      | (some e, fs1) =>
        -- this.#data = originalData; throw writeErr
        (some e, { st1 with data := originalData }, fs1)
      | (none, fs1) =>
        (none, { st1 with data := loadedData, initialized := true, dirty := false },
          fs1)

/-- `V1.reload()`: a missing file propagates its raw `ENOENT` error. -/
def reload (st : Store) (fs : FS) : Option JErr × Store × FS :=
  if st.initialized = false then (some (.jsError notInitMsg), st, fs)
  else
    match fs.read st.filePath with
    | none => (some (.enoent st.filePath), st, fs)
    | some content =>
      match parseJSON content with
      | none => (some (parseErrOf st.filePath), st, fs)
      | some v => (none, { st with data := v, dirty := false }, fs)

/-- `V1.save()`: `#writeAtomic()` reads `this.#data`. -/
def save (st : Store) (uuid : String) (fl : Faults) (fs : FS) :
    Option JErr × Store × FS :=
  if st.initialized = false then (some (.jsError notInitMsg), st, fs)
  else
    match writeAtomic st.filePath uuid st.data fl fs with
    | (some e, fs1) => (some e, st, fs1)
    | (none, fs1) => (none, { st with dirty := false }, fs1)

/-- `V1.update(updater)`: textually identical to the second class's. -/
def update (st : Store) (u : Updater) : Option JErr × Store :=
  if st.initialized = false then (some (.jsError notInitMsg), st)
  else
    match u with
    | .mutate f =>
      match f st.data with
      | .error e => (some e, st)
      | .ok cloned => (none, { st with data := cloned, dirty := true })
    | .patch p =>
      (none, { st with data := spreadMerge st.data p, dirty := true })

/-- `V1.updateAndSave(updater)`: `backup = this.#data` (by reference; the
mutator works on a clone and the merge builds a fresh object, so the
referenced value is never mutated). -/
def updateAndSave (st : Store) (u : Updater) (uuid : String) (fl : Faults)
    (fs : FS) : Option JErr × Store × FS :=
  if st.initialized = false then (some (.jsError notInitMsg), st, fs)
  else
    let backup := st.data
    let applied : Except JErr JValue :=
      match u with
      | .mutate f => f st.data
      | .patch p => .ok (spreadMerge st.data p)
    match applied with
    | .error e => (some e, { st with data := backup }, fs)
    | .ok newData =>
      match writeAtomic st.filePath uuid newData fl fs with
      | (some e, fs1) => (some e, { st with data := backup }, fs1)
      | (none, fs1) => (none, { st with data := newData, dirty := false }, fs1)

end V1

/-! ## The `AsyncMutex` promise chain

`runExclusive` synchronously links each unit of work onto `#queue`: unit
`i` awaits the promise that unit `i-1`'s `finally { release() }`
resolves (unit `0` awaits the already-resolved initial `#queue`).  A
unit's body therefore becomes startable exactly when its predecessor is
done; while running it may suspend any number of times (`k` remaining
suspension points) before finishing.  The scheduler interleaves these
transitions arbitrarily. -/

/-- The phase of one enqueued unit of work. -/
inductive UnitState where
  | pending : UnitState
  | running (k : Nat) : UnitState
  | done : UnitState
deriving DecidableEq

/-- One scheduler step over the enqueued units (list index = enqueue
order, fixed by the synchronous `prev = #queue; #queue = next`
chaining). -/
inductive MutexStep : List UnitState → List UnitState → Prop where
  /-- Unit `i`'s `await prev` completes — possible exactly when the
  predecessor's `release()` ran — and its body begins with some number
  `k` of suspension points ahead. -/
  | start (s : List UnitState) (i k : Nat) (hi : s[i]? = some .pending)
      (hprev : i = 0 ∨ s[i - 1]? = some .done) :
      MutexStep s (s.set i (.running k))
  /-- A running body resumes from one of its suspension points. -/
  | work (s : List UnitState) (i k : Nat) (hi : s[i]? = some (.running (k + 1))) :
      MutexStep s (s.set i (.running k))
  /-- A running body completes (or throws); `finally` runs `release()`. -/
  | finish (s : List UnitState) (i : Nat) (hi : s[i]? = some (.running 0)) :
      MutexStep s (s.set i .done)

/-- Reachability from the all-pending initial state of `n` enqueued
units. -/
inductive MutexReach (n : Nat) : List UnitState → Prop where
  | init : MutexReach n (List.replicate n .pending)
  | step {s t : List UnitState} : MutexReach n s → MutexStep s t → MutexReach n t

/-! # Theorems -/

/-! ## C1 — `updateAndSave` rollback -/

/-- C1: for every initialized store and every updater, if `updateAndSave`
fails at any point of the mutate-then-write sequence (the mutator throws,
or any step of the atomic write fails under any fault injection), the
in-memory document and the dirty flag equal their pre-call values after
the call rejects; on success the dirty flag is false. -/
theorem c1_updateAndSave_rollback (st : Store) (u : Updater) (uuid : String)
    (fl : Faults) (fs : FS) (hinit : st.initialized = true) :
    (∀ e st' fs', st.updateAndSave u uuid fl fs = (some e, st', fs') →
      st'.data = st.data ∧ st'.dirty = st.dirty)
    ∧ ∀ st' fs', st.updateAndSave u uuid fl fs = (none, st', fs') →
      st'.dirty = false := by
  unfold Store.updateAndSave
  rw [hinit]
  simp only [Bool.true_eq_false, if_false]
  constructor
  · intro e st' fs' h
    split at h
    · cases h
      exact ⟨rfl, rfl⟩
    · split at h
      · cases h
        exact ⟨rfl, rfl⟩
      · cases h
  · intro st' fs' h
    split at h
    · cases h
    · split at h
      · cases h
      · cases h
        rfl

/-- C1 witness: a mutator that throws rolls back, and a fault-free save
clears `dirty`, on a concrete initialized store. -/
theorem c1_updateAndSave_rollback_witness :
    (Store.new "/tmp/s.json" (.obj [])).initialized = false ∧
    ((fun st => (∀ e st' fs',
        st.updateAndSave (.mutate fun _ => .error (.jsError "boom")) "u" noFaults
          { dirs := ["/tmp"], files := [] } = (some e, st', fs') →
        st'.data = st.data ∧ st'.dirty = st.dirty)
      ∧ ∀ st' fs',
        st.updateAndSave (.mutate fun _ => .error (.jsError "boom")) "u" noFaults
          { dirs := ["/tmp"], files := [] } = (none, st', fs') →
        st'.dirty = false)
      { Store.new "/tmp/s.json" (.obj []) with initialized := true }) :=
  ⟨rfl, c1_updateAndSave_rollback
    { Store.new "/tmp/s.json" (.obj []) with initialized := true }
    (.mutate fun _ => .error (.jsError "boom")) "u" noFaults
    { dirs := ["/tmp"], files := [] } rfl⟩

/-! ## C9 — key validation -/

/-- A key `#validateKeys` accepts: a string (any string), or a finite
number. -/
def ukeyOk : UKey → Bool
  | .str _ => true
  | .num (.int _) => true
  | _ => false

theorem ukeyOk_iff (k : UKey) :
    ukeyOk k = true ↔ (∃ s, k = .str s) ∨ ∃ n, k = .num (.int n) := by
  cases k with
  | str s => simp [ukeyOk]
  | num v => cases v <;> simp [ukeyOk]
  | other t => simp [ukeyOk]

theorem validateKeysAux_ok_iff (keys : List UKey) (i : Nat) :
    (∃ ks, validateKeysAux i keys = .ok ks) ↔ ∀ k ∈ keys, ukeyOk k = true := by
  induction keys generalizing i with
  | nil => simp [validateKeysAux]
  | cons k tl ih =>
    cases k with
    | str s =>
      simp only [validateKeysAux, List.mem_cons]
      constructor
      · rintro ⟨ks, hks⟩ k' hk'
        rcases hk' with rfl | hk'
        · rfl
        · rcases hm : validateKeysAux (i + 1) tl with e | ks'
          · rw [hm] at hks; exact absurd hks (by simp [Except.map])
          · exact ((ih (i + 1)).mp ⟨ks', hm⟩) k' hk'
      · intro hall
        rcases (ih (i + 1)).mpr (fun k' hk' => hall k' (Or.inr hk')) with ⟨ks', hks'⟩
        exact ⟨.str s :: ks', by rw [hks']; rfl⟩
    | num v =>
      cases v with
      | int n =>
        simp only [validateKeysAux, List.mem_cons]
        constructor
        · rintro ⟨ks, hks⟩ k' hk'
          rcases hk' with rfl | hk'
          · rfl
          · rcases hm : validateKeysAux (i + 1) tl with e | ks'
            · rw [hm] at hks; exact absurd hks (by simp [Except.map])
            · exact ((ih (i + 1)).mp ⟨ks', hm⟩) k' hk'
        · intro hall
          rcases (ih (i + 1)).mpr (fun k' hk' => hall k' (Or.inr hk')) with ⟨ks', hks'⟩
          exact ⟨.idx n :: ks', by rw [hks']; rfl⟩
      | nan => simp [validateKeysAux, ukeyOk]
      | inf => simp [validateKeysAux, ukeyOk]
      | negInf => simp [validateKeysAux, ukeyOk]
    | other t => simp [validateKeysAux, ukeyOk]

/-- The error `#validateKeys` raises for the first offending key. -/
def keyErrOf (i : Nat) : UKey → JErr
  | .num v => .jsError (invalidKeyNumMsg i v)
  | .other t => .jsError (invalidKeyTypeMsg i t)
  | .str _ => .jsError ""

theorem validateKeysAux_err (keys : List UKey) (i j : Nat) (k : UKey)
    (hj : keys[j]? = some k)
    (hvalid : ∀ j' kj, j' < j → keys[j']? = some kj → ukeyOk kj = true)
    (hbad : ukeyOk k = false) :
    validateKeysAux i keys = .error (keyErrOf (i + j) k) := by
  induction keys generalizing i j with
  | nil => simp at hj
  | cons k0 tl ih =>
    cases j with
    | zero =>
      simp only [List.getElem?_cons_zero, Option.some.injEq] at hj
      rw [show k = k0 from hj.symm] at hbad ⊢
      cases k0 with
      | str s => simp [ukeyOk] at hbad
      | num v =>
        cases v with
        | int n => simp [ukeyOk] at hbad
        | nan => rfl
        | inf => rfl
        | negInf => rfl
      | other t => rfl
    | succ j' =>
      simp only [List.getElem?_cons_succ] at hj
      have h0 : ukeyOk k0 = true :=
        hvalid 0 k0 (Nat.succ_pos j') (by simp)
      have htl : validateKeysAux (i + 1) tl = .error (keyErrOf (i + 1 + j') k) :=
        ih (i + 1) j' hj
          (fun j'' kj hj'' hkj =>
            hvalid (j'' + 1) kj (Nat.succ_lt_succ hj'') (by simpa using hkj))
      have harith : i + 1 + j' = i + (j' + 1) := by omega
      rw [harith] at htl
      cases k0 with
      | str s => simp only [validateKeysAux, htl]; rfl
      | num v =>
        cases v with
        | int n => simp only [validateKeysAux, htl]; rfl
        | nan => simp [ukeyOk] at h0
        | inf => simp [ukeyOk] at h0
        | negInf => simp [ukeyOk] at h0
      | other t => simp [ukeyOk] at h0

/-- C9 (amended): key validation of the path operations succeeds iff
every key is a string (empty and non-identifier strings included) or a
finite number; otherwise the first offending key aborts validation with
an error naming its position index and — for non-string, non-number
values — its actual type (non-finite numbers are reported with their
value). -/
theorem c9_validateKeys (keys : List UKey) :
    ((∃ ks, validateKeys keys = .ok ks) ↔
      ∀ k ∈ keys, (∃ s, k = .str s) ∨ ∃ n, k = .num (.int n))
    ∧ ∀ j k, keys[j]? = some k →
      (∀ j' kj, j' < j → keys[j']? = some kj →
        (∃ s, kj = .str s) ∨ ∃ n, kj = .num (.int n)) →
      ((∀ v, k = .num v → (∀ n, v ≠ .int n) →
          validateKeys keys = .error (.jsError (invalidKeyNumMsg j v)))
        ∧ ∀ t, k = .other t →
          validateKeys keys = .error (.jsError (invalidKeyTypeMsg j t))) := by
  constructor
  · rw [validateKeys, validateKeysAux_ok_iff]
    constructor
    · intro h k hk; exact (ukeyOk_iff k).mp (h k hk)
    · intro h k hk; exact (ukeyOk_iff k).mpr (h k hk)
  · intro j k hj hvalid
    constructor
    · rintro v rfl hnint
      have hbad : ukeyOk (.num v) = false := by
        cases v with
        | int n => exact absurd rfl (hnint n)
        | nan => rfl
        | inf => rfl
        | negInf => rfl
      have := validateKeysAux_err keys 0 j (.num v) hj
        (fun j' kj hj' hkj => (ukeyOk_iff kj).mpr (hvalid j' kj hj' hkj)) hbad
      simpa [validateKeys, keyErrOf] using this
    · rintro t rfl
      have := validateKeysAux_err keys 0 j (.other t) hj
        (fun j' kj hj' hkj => (ukeyOk_iff kj).mpr (hvalid j' kj hj' hkj)) rfl
      simpa [validateKeys, keyErrOf] using this

/-- C9 witness: on `["a", NaN]` validation fails naming index 1 and the
non-finite value; the `["a"]` preamble is valid. -/
theorem c9_validateKeys_witness :
    validateKeys [.str "a", .num .nan] =
      .error (.jsError (invalidKeyNumMsg 1 .nan)) :=
  (((c9_validateKeys [.str "a", .num .nan]).2 1 (.num .nan) rfl
    (fun j' kj hj' hkj => by
      have hj0 : j' = 0 := by omega
      subst hj0
      simp only [List.getElem?_cons_zero, Option.some.injEq] at hkj
      exact Or.inl ⟨"a", hkj.symm⟩)).1 .nan rfl (fun n h => JSNum.noConfusion h))

/-- C9 counterexample: the claim requires validation to reject keys that
are not non-empty identifier strings, but `#validateKeys` accepts every
string — the empty string and a non-identifier string pass. -/
theorem c9_counterexample :
    validateKeys [.str "", .str "a b"] = .ok [.str "", .str "a b"]
    ∧ isIdentName "" = false
    ∧ ("" : String).length = 0
    ∧ isIdentName "a b" = false := by
  refine ⟨rfl, rfl, rfl, ?_⟩
  decide

/-! ## C2 — atomic write failure -/

theorem getAssoc_setAssoc_self (l : List (String × String)) (k v : String) :
    getAssoc (setAssoc l k v) k = some v := by
  induction l with
  | nil => simp [setAssoc, getAssoc]
  | cons hd tl ih =>
    rcases hd with ⟨k', v'⟩
    by_cases hk : k' = k
    · simp [setAssoc, getAssoc, hk]
    · simp [setAssoc, getAssoc, hk, ih]

theorem getAssoc_setAssoc_ne (l : List (String × String)) (k q v : String)
    (hne : q ≠ k) : getAssoc (setAssoc l k v) q = getAssoc l q := by
  induction l with
  | nil => simp [setAssoc, getAssoc, hne.symm]
  | cons hd tl ih =>
    rcases hd with ⟨k', v'⟩
    by_cases hk : k' = k
    · have hk'q : k' ≠ q := fun h => hne (h.symm.trans hk)
      simp [setAssoc, getAssoc, hk, hne.symm, hk'q]
    · simp [setAssoc, getAssoc, hk, ih]

theorem getAssoc_removeAssoc_self (l : List (String × String)) (k : String) :
    getAssoc (removeAssoc l k) k = none := by
  induction l with
  | nil => simp [removeAssoc, getAssoc]
  | cons hd tl ih =>
    rcases hd with ⟨k', v'⟩
    by_cases hk : k' = k <;> simp [removeAssoc, getAssoc, hk, ih]

theorem getAssoc_removeAssoc_ne (l : List (String × String)) (k q : String)
    (hne : q ≠ k) : getAssoc (removeAssoc l k) q = getAssoc l q := by
  induction l with
  | nil => simp [removeAssoc, getAssoc]
  | cons hd tl ih =>
    rcases hd with ⟨k', v'⟩
    by_cases hk : k' = k
    · have hk'q : k' ≠ q := fun h => hne (h.symm.trans hk)
      simp [removeAssoc, getAssoc, hk, hk'q, hne.symm, ih]
    · simp [removeAssoc, getAssoc, hk, ih]

/-- The temp name strictly extends the target path, so they differ. -/
theorem tmpName_ne (filePath uuid : String) : tmpName filePath uuid ≠ filePath := by
  intro h
  have hlen := congrArg String.length h
  have h4 : (".tmp" : String).length = 4 := rfl
  have h1 : ("." : String).length = 1 := rfl
  simp only [tmpName, String.length_append, h4, h1] at hlen
  omega

theorem tmpName_ne' (filePath uuid : String) : filePath ≠ tmpName filePath uuid :=
  fun h => tmpName_ne filePath uuid h.symm

/-- C2: whenever a step of the atomic write protocol fails after the temp
file was created (write, fsync, close, or rename — under any combination
of injected faults, including a failing unlink), the original protocol
error is re-thrown (never an unlink error: deletion failures are
swallowed), the target file's prior content is untouched, and — when the
best-effort unlink itself does not fail — no `.tmp` artifact remains. -/
theorem c2_writeAtomic_failure (filePath uuid : String) (d : JValue)
    (fl : Faults) (fs : FS) (hopen : fl.openFail = false)
    (hfail : fl.writeFail = true ∨ fl.syncFail = true ∨ fl.closeFail = true ∨
      fl.renameFail = true) :
    (∃ op, (op = "write" ∨ op = "fsync" ∨ op = "close" ∨ op = "rename") ∧
      (writeAtomic filePath uuid d fl fs).1 =
        some (.ioFault op (tmpName filePath uuid)))
    ∧ (writeAtomic filePath uuid d fl fs).2.read filePath = fs.read filePath
    ∧ (fl.unlinkFail = false →
      (writeAtomic filePath uuid d fl fs).2.read (tmpName filePath uuid) = none) := by
  have hne := tmpName_ne filePath uuid
  rcases fl with ⟨o, w, sy, cl, rn, ul⟩
  cases o
  · cases w <;> cases sy <;> cases cl <;> cases rn <;> cases ul <;>
      simp_all [writeAtomic, FS.read, FS.write, FS.remove,
        getAssoc_setAssoc_self, getAssoc_setAssoc_ne, getAssoc_removeAssoc_self,
        getAssoc_removeAssoc_ne, tmpName_ne']
  · cases hopen

/-- C2 witness: a failing rename on a concrete store leaves the old
target content in place, removes the temp file, and re-throws the rename
error. -/
theorem c2_writeAtomic_failure_witness :
    ((fun r =>
      (∃ op, (op = "write" ∨ op = "fsync" ∨ op = "close" ∨ op = "rename") ∧
        r.1 = some (.ioFault op (tmpName "/tmp/s.json" "u")))
      ∧ r.2.read "/tmp/s.json" =
        FS.read { dirs := ["/tmp"], files := [("/tmp/s.json", "old")] } "/tmp/s.json"
      ∧ (({ noFaults with renameFail := true } : Faults).unlinkFail = false →
        r.2.read (tmpName "/tmp/s.json" "u") = none))
      (writeAtomic "/tmp/s.json" "u" (.obj []) { noFaults with renameFail := true }
        { dirs := ["/tmp"], files := [("/tmp/s.json", "old")] })) :=
  c2_writeAtomic_failure "/tmp/s.json" "u" (.obj [])
    { noFaults with renameFail := true }
    { dirs := ["/tmp"], files := [("/tmp/s.json", "old")] } rfl
    (Or.inr (Or.inr (Or.inr rfl)))

/-! ## C3 — missing-file semantics of `load` vs `reload` -/

/-- C3: with an existing parent directory and an absent target file,
`load()` writes the freshly produced default document to disk and adopts
it (`initialized := true`, `dirty := false`); `reload()` on an
initialized store instead fails with the `File does not exist` error
carrying the `ENOENT` cause, creates no file, and leaves document, dirty
flag and initialized flag unchanged. -/
theorem c3_load_creates_reload_fails (st st2 : Store) (uuid : String) (fs : FS)
    (hdir : fs.dirs.contains (dirnameStr st.filePath) = true)
    (hmiss : fs.read st.filePath = none)
    (hinit2 : st2.initialized = true)
    (hmiss2 : fs.read st2.filePath = none) :
    (∃ fs', st.load uuid noFaults fs =
        (none, { st with data := st.defaultData, initialized := true, dirty := false },
          fs')
      ∧ fs'.read st.filePath = some (stringify st.defaultData))
    ∧ st2.reload fs =
      (some (.jsErrorCause (fileMissingMsg st2.filePath) (.enoent st2.filePath)),
        st2, fs) := by
  constructor
  · refine ⟨((fs.write (tmpName st.filePath uuid) "").write
        (tmpName st.filePath uuid) (stringify st.defaultData)).remove
          (tmpName st.filePath uuid) |>.write st.filePath (stringify st.defaultData),
      ?_, ?_⟩
    · simp only [Store.load, hdir, readOrCreateDefault, hmiss, writeAtomic, noFaults,
        Bool.false_eq_true, if_false, reduceIte]
      rw [show (((fs.write (tmpName st.filePath uuid) "").write (tmpName st.filePath uuid)
          (stringify st.defaultData)).read (tmpName st.filePath uuid)) =
          some (stringify st.defaultData) from getAssoc_setAssoc_self _ _ _]
      simp
    · exact getAssoc_setAssoc_self _ _ _
  · simp [Store.reload, hinit2, hmiss2]

/-- C3 witness: a concrete empty directory. -/
theorem c3_load_creates_reload_fails_witness :
    ((fun st st2 fs =>
      (∃ fs', Store.load st "u" noFaults fs =
          (none, { st with data := st.defaultData, initialized := true, dirty := false },
            fs')
        ∧ fs'.read st.filePath = some (stringify st.defaultData))
      ∧ Store.reload st2 fs =
        (some (.jsErrorCause (fileMissingMsg st2.filePath) (.enoent st2.filePath)),
          st2, fs))
      (Store.new "/tmp/s.json" (.obj []))
      { Store.new "/tmp/r.json" (.obj []) with initialized := true }
      { dirs := ["/tmp"], files := [] }) :=
  c3_load_creates_reload_fails (Store.new "/tmp/s.json" (.obj []))
    { Store.new "/tmp/r.json" (.obj []) with initialized := true }
    "u" { dirs := ["/tmp"], files := [] } rfl rfl rfl rfl

/-! ## C5 — `update` merge and mutator semantics -/

theorem getAssoc_insertField (l : List (String × JValue)) (k : String)
    (v : JValue) (q : String) :
    getAssoc (insertField l k v) q = if q = k then some v else getAssoc l q := by
  induction l with
  | nil =>
    by_cases hq : q = k
    · simp [insertField, getAssoc, hq]
    · simp [insertField, getAssoc, hq, Ne.symm hq]
  | cons hd tl ih =>
    rcases hd with ⟨k', v'⟩
    by_cases hk : k' = k
    · subst hk
      by_cases hq : q = k'
      · simp [insertField, getAssoc, hq]
      · simp [insertField, getAssoc, hq, Ne.symm hq]
    · by_cases hq : q = k'
      · subst hq
        simp [insertField, getAssoc, hk, Ne.symm hk]
      · simp [insertField, getAssoc, hk, Ne.symm hq, hq, ih]

theorem getAssoc_eq_none_of_not_mem (l : List (String × JValue)) (k : String)
    (h : k ∉ l.map Prod.fst) : getAssoc l k = none := by
  induction l with
  | nil => rfl
  | cons hd tl ih =>
    rcases hd with ⟨k', v'⟩
    simp only [List.map_cons, List.mem_cons] at h
    push_neg at h
    simp [getAssoc, Ne.symm h.1, ih h.2]

theorem getAssoc_objAssign (b : List (String × JValue))
    (hnd : (b.map Prod.fst).Nodup) (a : List (String × JValue)) (q : String) :
    getAssoc (objAssign a b) q = (getAssoc b q).or (getAssoc a q) := by
  induction b generalizing a with
  | nil => simp [objAssign, getAssoc]
  | cons hd tl ih =>
    rcases hd with ⟨k, v⟩
    simp only [List.map_cons, List.nodup_cons] at hnd
    have step : objAssign a ((k, v) :: tl) = objAssign (insertField a k v) tl := rfl
    rw [step, ih hnd.2]
    by_cases hq : q = k
    · subst hq
      rw [getAssoc_eq_none_of_not_mem tl q hnd.1]
      simp [getAssoc, getAssoc_insertField]
    · simp [getAssoc, Ne.symm hq, getAssoc_insertField, hq]

/-- C5: on an initialized store, `update` with a partial document
performs the one-level shallow merge `{ ...data, ...partial }` and sets
`dirty`; a key present in the partial maps in the result to exactly the
partial's value (nested containers replaced wholesale, not merged);
`update` with a mutator adopts the mutated clone only when the mutator
returns without throwing, setting `dirty`, and on a throw leaves the
store (document and dirty flag) unchanged while propagating the error. -/
theorem c5_update_semantics (st : Store) (p : List (String × JValue))
    (f : JValue → Except JErr JValue) (hinit : st.initialized = true)
    (hnd : (p.map Prod.fst).Nodup) :
    (st.update (.patch p) =
      (none, { st with data := spreadMerge st.data p, dirty := true }))
    ∧ (∀ k v, getAssoc p k = some v →
        getKey (spreadMerge st.data p) (.str k) = some v)
    ∧ (∀ d, f st.data = .ok d →
        st.update (.mutate f) = (none, { st with data := d, dirty := true }))
    ∧ (∀ e, f st.data = .error e → st.update (.mutate f) = (some e, st)) := by
  refine ⟨?_, ?_, ?_, ?_⟩
  · simp [Store.update, hinit]
  · intro k v hkv
    show getAssoc (objAssign (objAssign [] (spreadFields st.data)) p) k = some v
    rw [getAssoc_objAssign p hnd, hkv]
    rfl
  · intro d hd
    simp [Store.update, hinit, hd]
  · intro e he
    simp [Store.update, hinit, he]

/-- C5 witness: a concrete merge replacing a nested container wholesale,
plus a succeeding and a throwing mutator. -/
theorem c5_update_semantics_witness :
    ((fun st p f =>
      (Store.update st (.patch p) =
        (none, { st with data := spreadMerge st.data p, dirty := true }))
      ∧ (∀ k v, getAssoc p k = some v →
          getKey (spreadMerge st.data p) (.str k) = some v)
      ∧ (∀ d, f st.data = .ok d →
          Store.update st (.mutate f) = (none, { st with data := d, dirty := true }))
      ∧ (∀ e, f st.data = .error e → Store.update st (.mutate f) = (some e, st)))
      { Store.new "/tmp/s.json"
          (.obj [("a", .obj [("x", .num 1)]), ("b", .num 2)]) with initialized := true }
      [("a", .arr [.num 5])]
      (fun _ => .ok .null)) :=
  c5_update_semantics
    { Store.new "/tmp/s.json"
        (.obj [("a", .obj [("x", .num 1)]), ("b", .num 2)]) with initialized := true }
    [("a", .arr [.num 5])] (fun _ => .ok .null) rfl (by simp)

/-! ## C6 — serialized-access queue -/

/-- The queue invariant: once a unit's body has begun (it is no longer
pending), every earlier-enqueued unit has finished. -/
def MutexInv (s : List UnitState) : Prop :=
  ∀ (i j : Nat) (u : UnitState), j < i → s[i]? = some u → u ≠ .pending →
    s[j]? = some .done

theorem mutexInv_init (n : Nat) : MutexInv (List.replicate n .pending) := by
  intro i j u _ hi hne
  rw [List.getElem?_replicate] at hi
  split at hi
  · cases hi; exact absurd rfl hne
  · cases hi

theorem lt_length_of_getElem?_eq_some {α : Type} {l : List α} {i : Nat} {a : α}
    (h : l[i]? = some a) : i < l.length := by
  by_contra hc
  rw [List.getElem?_eq_none (Nat.le_of_not_lt hc)] at h
  cases h

theorem mutexInv_step {s t : List UnitState} (hinv : MutexInv s)
    (hstep : MutexStep s t) : MutexInv t := by
  cases hstep with
  | start i k hi hprev =>
    intro i' j u hj hi' hne
    by_cases hii : i = i'
    · subst hii
      have hji : j ≠ i := Nat.ne_of_lt hj
      rw [List.getElem?_set_ne (fun h => hji h.symm)]
      rcases hprev with rfl | hdone
      · exact absurd hj (Nat.not_lt_zero j)
      · rcases Nat.lt_or_ge j (i - 1) with hlt | hge
        · exact hinv (i - 1) j _ hlt hdone (by simp)
        · have : j = i - 1 := by omega
          rw [this]; exact hdone
    · rw [List.getElem?_set_ne hii] at hi'
      have hall := fun j' hj' => hinv i' j' u hj' hi' hne
      by_cases hji : i = j
      · subst hji
        have hcontra := hall i hj
        rw [hi] at hcontra
        cases hcontra
      · rw [List.getElem?_set_ne hji]
        exact hall j hj
  | work i k hi =>
    intro i' j u hj hi' hne
    by_cases hii : i = i'
    · subst hii
      have hji : j ≠ i := Nat.ne_of_lt hj
      rw [List.getElem?_set_ne (fun h => hji h.symm)]
      exact hinv i j _ hj hi (by simp)
    · rw [List.getElem?_set_ne hii] at hi'
      have hall := fun j' hj' => hinv i' j' u hj' hi' hne
      by_cases hji : i = j
      · subst hji
        have hcontra := hall i hj
        rw [hi] at hcontra
        cases hcontra
      · rw [List.getElem?_set_ne hji]
        exact hall j hj
  | finish i hi =>
    intro i' j u hj hi' hne
    by_cases hii : i = i'
    · subst hii
      have hji : j ≠ i := Nat.ne_of_lt hj
      rw [List.getElem?_set_ne (fun h => hji h.symm)]
      exact hinv i j _ hj hi (by simp)
    · rw [List.getElem?_set_ne hii] at hi'
      have hall := fun j' hj' => hinv i' j' u hj' hi' hne
      by_cases hji : i = j
      · subst hji
        rw [List.getElem?_set]
        simp only [if_pos rfl, lt_length_of_getElem?_eq_some hi, if_pos]
      · rw [List.getElem?_set_ne hji]
        exact hall j hj

theorem mutexInv_reach {n : Nat} {s : List UnitState} (h : MutexReach n s) :
    MutexInv s := by
  induction h with
  | init => exact mutexInv_init n
  | step _ hstep ih => exact mutexInv_step ih hstep

/-- C6: in every state the promise-chained queue can reach, at most one
unit's body is in progress, and bodies begin in enqueue order: once a
later-enqueued unit is no longer pending, every earlier unit has
completed — in particular, with a `save()` enqueued before a `reload()`,
the reload's body (its read) begins only after the save's body (its
write) has finished, for every interleaving of suspensions. -/
theorem c6_mutex_serializes (n : Nat) (s : List UnitState) (h : MutexReach n s) :
    (∀ (i j ki kj : Nat), i < j → s[i]? = some (.running ki) →
      s[j]? = some (.running kj) → False)
    ∧ ∀ (i j : Nat) (u : UnitState), i < j → s[j]? = some u → u ≠ .pending →
      s[i]? = some .done := by
  have hinv := mutexInv_reach h
  constructor
  · intro i j ki kj hij hi hj
    have := hinv j i _ hij hj (by simp)
    rw [hi] at this
    cases this
  · intro i j u hij hj hne
    exact hinv j i u hij hj hne

/-- C6 witness: the state where the first unit (a queued `save`) is done
and the second (a queued `reload`) is running is reachable, and the
theorem's conclusions hold there. -/
theorem c6_mutex_serializes_witness :
    (∀ (i j ki kj : Nat), i < j →
      [UnitState.done, UnitState.running 0][i]? = some (.running ki) →
      [UnitState.done, UnitState.running 0][j]? = some (.running kj) → False)
    ∧ ∀ (i j : Nat) (u : UnitState), i < j →
      [UnitState.done, UnitState.running 0][j]? = some u →
      u ≠ .pending → [UnitState.done, UnitState.running 0][i]? = some .done :=
  c6_mutex_serializes 2 [UnitState.done, UnitState.running 0]
    ((((@MutexReach.init 2).step
      (MutexStep.start [.pending, .pending] 0 0 rfl (Or.inl rfl))).step
      (MutexStep.finish [.running 0, .pending] 0 rfl)).step
      (MutexStep.start [.done, .pending] 1 0 rfl (Or.inr rfl)))

/-! ## C7 / C8 — `#setAtPath` guards -/

def isContainer : JValue → Bool
  | .obj _ => true
  | .arr _ => true
  | _ => false

/-- A stored primitive: neither a container nor `null`. -/
def isPrimitive : JValue → Bool
  | .bool _ => true
  | .num _ => true
  | .str _ => true
  | _ => false

/-- A `#setAtPath` error surfaces from `setPath` with the store (document
and dirty flag) unchanged. -/
theorem setPath_of_setAtPath_error (st : Store) (keys : List UKey)
    (vks : List JKey) (value : JValue) (e : JErr) (hinit : st.initialized = true)
    (hvk : validateKeys keys = .ok vks) (hne : vks ≠ [])
    (herr : setAtPath st.data vks value = .error e) :
    st.setPath keys value = (some e, st) := by
  rcases st with ⟨fp, dat, init, dr, dflt⟩
  cases hinit
  unfold Store.setPath
  rw [hvk]
  simp only [List.length_eq_zero, hne, if_false]
  unfold Store.update
  simp [herr]

/-- A `#setAtPath` error surfaces from `setPathAndSave` with the store
and the file system unchanged. -/
theorem setPathAndSave_of_setAtPath_error (st : Store) (keys : List UKey)
    (vks : List JKey) (value : JValue) (e : JErr) (uuid : String) (fl : Faults)
    (fs : FS) (hinit : st.initialized = true)
    (hvk : validateKeys keys = .ok vks) (hne : vks ≠ [])
    (herr : setAtPath st.data vks value = .error e) :
    st.setPathAndSave keys value uuid fl fs = (some e, st, fs) := by
  rcases st with ⟨fp, dat, init, dr, dflt⟩
  cases hinit
  unfold Store.setPathAndSave
  rw [hvk]
  simp only [List.length_eq_zero, hne, if_false]
  unfold Store.updateAndSave
  simp [herr]

/-- Errors below an existing container propagate unchanged through the
walk. -/
theorem setAtPathAux_error_step (pfx : List JKey) (cur c : JValue) (k : JKey)
    (rest : List JKey) (value : JValue) (e : JErr) (hk : getKey cur k = some c)
    (hc : isContainer c = true) (hrest : rest ≠ [])
    (herr : setAtPathAux (pfx ++ [k]) c rest value = .error e) :
    setAtPathAux pfx cur (k :: rest) value = .error e := by
  match rest, hrest with
  | nk :: rest', _ =>
    cases c with
    | obj fields => simp [setAtPathAux, hk, herr, Except.map]
    | arr xs => simp [setAtPathAux, hk, herr, Except.map]
    | null => simp [isContainer] at hc
    | bool b => simp [isContainer] at hc
    | num n => simp [isContainer] at hc
    | str s => simp [isContainer] at hc

/-- C7 (amended): whenever the walk of `#setAtPath` meets a nullish
`current[key]` whose next key is a (finite) numeric index, the call fails
with the `ArrayAutoCreateRefused` error, whose message is exactly the
formatted path prefix plus the suggested corrective `setPath` call; the
error propagates out of `setPath`, which leaves the store unchanged
(never silently creating a sequence).  Initializing that position to an
empty sequence resolves that refusal; the same call then succeeds
provided no later position pairs a missing container with a numeric next
key — in particular `setPath(['items', 0], x)` on a document lacking
`items` fails, and succeeds after `setPath(['items'], [])`. -/
theorem c7_array_guard :
    (∀ (pfx : List JKey) (cur : JValue) (k : JKey) (m : Int) (rest : List JKey)
      (value : JValue), (getKey cur k = none ∨ getKey cur k = some .null) →
      setAtPathAux pfx cur (k :: .idx m :: rest) value =
        .error (.jsError (arrayAutoCreateMsg (pfx ++ [k])))
      ∧ arrayAutoCreateMsg (pfx ++ [k]) =
        "Cannot auto-create array at '" ++ formatPath (pfx ++ [k]) ++ "'. " ++
          "Initialize it first with setPath([" ++
          joinCommaSpace ((pfx ++ [k]).map jsonStringifyKey) ++ "], [])")
    ∧ (∀ (st : Store) (keys : List UKey) (vks : List JKey) (value : JValue)
      (e : JErr), st.initialized = true → validateKeys keys = .ok vks →
      vks ≠ [] → setAtPath st.data vks value = .error e →
      st.setPath keys value = (some e, st))
    ∧ ∀ (fields : List (String × JValue)) (value : JValue),
      (getAssoc fields "items" = none ∨ getAssoc fields "items" = some .null) →
      (∀ (st : Store), st.data = .obj fields → st.initialized = true →
        st.setPath [.str "items", .num (.int 0)] value =
          (some (.jsError (arrayAutoCreateMsg [.str "items"])), st)
        ∧ ∀ st1, st.setPath [.str "items"] (.arr []) = (none, st1) →
          ∃ st2, st1.setPath [.str "items", .num (.int 0)] value = (none, st2)
            ∧ getKey st2.data (.str "items") = some (.arr [value])) := by
  have hlocal : ∀ (pfx : List JKey) (cur : JValue) (k : JKey) (m : Int)
      (rest : List JKey) (value : JValue),
      (getKey cur k = none ∨ getKey cur k = some .null) →
      setAtPathAux pfx cur (k :: .idx m :: rest) value =
        .error (.jsError (arrayAutoCreateMsg (pfx ++ [k]))) := by
    intro pfx cur k m rest value hnull
    rcases hnull with hnull | hnull <;> simp [setAtPathAux, hnull]
  refine ⟨fun pfx cur k m rest value hnull => ⟨hlocal _ _ _ _ _ _ hnull, ?_⟩,
    setPath_of_setAtPath_error, ?_⟩
  · rfl
  · intro fields value hitems st hdata hinit
    constructor
    · refine setPath_of_setAtPath_error st _ [.str "items", .idx 0] value _ hinit rfl
        (by simp) ?_
      rw [hdata]
      exact hlocal [] (.obj fields) (.str "items") 0 [] value (by
        simp only [getKey]
        exact hitems)
    · intro st1 hst1
      have hset : st.setPath [.str "items"] (.arr []) =
          (none, { st with
            data := .obj (insertField fields "items" (.arr [])),
            dirty := true }) := by
        unfold Store.setPath Store.update
        rw [hinit]
        simp only [Bool.true_eq_false, if_false]
        simp [validateKeys, validateKeysAux, setAtPath, setAtPathAux, hdata, setKey,
          Except.map]
      rw [hset] at hst1
      have hst1' : st1 = { st with
          data := .obj (insertField fields "items" (.arr [])), dirty := true } := by
        have := congrArg Prod.snd hst1
        exact this.symm
      subst hst1'
      refine ⟨Store.mk st.filePath
        (.obj (insertField (insertField fields "items" (.arr [])) "items"
          (.arr [value])))
        st.initialized true st.defaultData, ?_, ?_⟩
      · unfold Store.setPath Store.update
        simp only [hinit, Bool.true_eq_false, if_false]
        have hget : getKey (JValue.obj (insertField fields "items" (.arr [])))
            (.str "items") = some (.arr []) := by
          simp only [getKey]
          rw [getAssoc_insertField]
          simp
        simp [validateKeys, validateKeysAux, setAtPath, setAtPathAux, hget, setKey,
          setIdx, Except.map]
      · simp only [getKey]
        rw [getAssoc_insertField]
        simp

/-- C7 witness: the spec's guard example on a concrete store lacking
`items`. -/
theorem c7_array_guard_witness :
    ((fun st : Store =>
      st.setPath [.str "items", .num (.int 0)] (.num 7) =
        (some (.jsError (arrayAutoCreateMsg [.str "items"])), st)
      ∧ ∀ st1, st.setPath [.str "items"] (.arr []) = (none, st1) →
        ∃ st2, st1.setPath [.str "items", .num (.int 0)] (.num 7) = (none, st2)
          ∧ getKey st2.data (.str "items") = some (.arr [.num 7]))
      { Store.new "/tmp/s.json" (.obj []) with initialized := true }) :=
  (c7_array_guard.2.2 [] (.num 7) (Or.inl rfl)
    { Store.new "/tmp/s.json" (.obj []) with initialized := true } rfl rfl)

/-- C7 counterexample: on the document `{}` and path `['a', 0, 0]` the
refusal at `'a'` is raised as the claim says, but after initializing that
position with `setPath(['a'], [])` the same call still fails (now refused
at `'a[0]'`), so the claim's "the same call succeeds" is false as
universally stated. -/
theorem c7_counterexample :
    (Store.setPath { Store.new "/s" (.obj []) with initialized := true }
        [.str "a", .num (.int 0), .num (.int 0)] (.num 7)).1 =
      some (.jsError (arrayAutoCreateMsg [.str "a"]))
    ∧ ((Store.setPath
        (Store.setPath { Store.new "/s" (.obj []) with initialized := true }
          [.str "a"] (.arr [])).2
        [.str "a", .num (.int 0), .num (.int 0)] (.num 7)).1 =
      some (.jsError (arrayAutoCreateMsg [.str "a", .idx 0]))) :=
  ⟨rfl, rfl⟩

/-- C8 (amended): if the walk of the leading keys meets an existing
stored value that is neither a mapping, a sequence, nor `null`,
`#setAtPath` fails with the traversal error naming the offending path
segment; the error propagates through existing containers and surfaces
from `setPath` and `setPathAndSave` with the store unchanged.  (A stored
`null` is nullish and is instead treated as a missing container.) -/
theorem c8_traversal_failure :
    (∀ (pfx : List JKey) (cur : JValue) (k nk : JKey) (rest : List JKey)
      (value w : JValue), getKey cur k = some w → isPrimitive w = true →
      setAtPathAux pfx cur (k :: nk :: rest) value =
        .error (.jsError (traverseMsg (pfx ++ [k]))))
    ∧ (∀ (pfx : List JKey) (cur c : JValue) (k : JKey) (rest : List JKey)
      (value : JValue) (e : JErr), getKey cur k = some c →
      isContainer c = true → rest ≠ [] →
      setAtPathAux (pfx ++ [k]) c rest value = .error e →
      setAtPathAux pfx cur (k :: rest) value = .error e)
    ∧ (∀ (st : Store) (keys : List UKey) (vks : List JKey) (value : JValue)
      (e : JErr), st.initialized = true → validateKeys keys = .ok vks →
      vks ≠ [] → setAtPath st.data vks value = .error e →
      st.setPath keys value = (some e, st))
    ∧ ∀ (st : Store) (keys : List UKey) (vks : List JKey) (value : JValue)
      (e : JErr) (uuid : String) (fl : Faults) (fs : FS),
      st.initialized = true → validateKeys keys = .ok vks → vks ≠ [] →
      setAtPath st.data vks value = .error e →
      st.setPathAndSave keys value uuid fl fs = (some e, st, fs) := by
  refine ⟨?_, setAtPathAux_error_step, setPath_of_setAtPath_error,
    setPathAndSave_of_setAtPath_error⟩
  intro pfx cur k nk rest value w hw hprim
  cases w with
  | bool b => simp [setAtPathAux, hw]
  | num n => simp [setAtPathAux, hw]
  | str s => simp [setAtPathAux, hw]
  | null => simp [isPrimitive] at hprim
  | arr xs => simp [isPrimitive] at hprim
  | obj fields => simp [isPrimitive] at hprim

/-- C8 witness: traversing through the number stored at `'a'` fails with
the traversal error naming `'a'`, and `setPath` leaves the concrete store
unchanged. -/
theorem c8_traversal_failure_witness :
    Store.setPath { Store.new "/s" (.obj [("a", .num 5)]) with initialized := true }
        [.str "a", .str "b"] (.num 1) =
      (some (.jsError (traverseMsg [.str "a"])),
        { Store.new "/s" (.obj [("a", .num 5)]) with initialized := true }) :=
  c8_traversal_failure.2.2.1
    { Store.new "/s" (.obj [("a", .num 5)]) with initialized := true }
    [.str "a", .str "b"] [.str "a", .str "b"] (.num 1)
    (.jsError (traverseMsg [.str "a"])) rfl rfl (by simp)
    (c8_traversal_failure.1 [] (.obj [("a", .num 5)]) (.str "a") (.str "b") []
      (.num 1) (.num 5) rfl rfl)

/-- C8 counterexample: an explicitly stored `null` is an existing
non-container value, yet traversal does not fail — `setPath(['a','b'],1)`
on `{"a": null}` succeeds, replacing the `null` by a fresh mapping. -/
theorem c8_counterexample :
    Store.setPath { Store.new "/s" (.obj [("a", .null)]) with initialized := true }
        [.str "a", .str "b"] (.num 1) =
      (none, { Store.new "/s" (.obj [("a", .null)]) with
        data := .obj [("a", .obj [("b", .num 1)])],
        initialized := true, dirty := true }) :=
  rfl

/-! ## C10 — equivalence of the two `JSONStore` classes -/

/-- The observation the equivalence claim compares: whether the call
failed, the resulting store state, and the resulting file system.  (The
two classes differ in the identity of the error value `reload` throws on
a missing file — raw `ENOENT` versus the wrapped `File does not exist` —
which is outside the claim's statement.) -/
def obsStore (r : Option JErr × Store × FS) : Bool × Store × FS :=
  (r.1.isSome, r.2)

/-- C10: on every starting state, updater, fault injection and file
system, the five shared public operations of the two `JSONStore` classes
succeed or fail together and leave identical store state and on-disk
content; `save`, `update` and `updateAndSave` agree on the error value
as well. -/
theorem c10_equivalence (st : Store) (u : Updater) (uuid : String) (fl : Faults)
    (fs : FS) :
    obsStore (V1.load st uuid fl fs) = obsStore (st.load uuid fl fs)
    ∧ obsStore (V1.reload st fs) = obsStore (st.reload fs)
    ∧ V1.save st uuid fl fs = st.save uuid fl fs
    ∧ V1.update st u = st.update u
    ∧ V1.updateAndSave st u uuid fl fs = st.updateAndSave u uuid fl fs := by
  refine ⟨?_, ?_, rfl, rfl, rfl⟩
  · unfold V1.load Store.load readOrCreateDefault
    cases hc : fs.dirs.contains (dirnameStr st.filePath) with
    | false => rfl
    | true =>
      simp only [hc, reduceIte]
      cases hr : fs.read st.filePath with
      | none =>
        rcases hw : writeAtomic st.filePath uuid st.defaultData fl fs with ⟨err, fs1⟩
        cases err <;> simp [obsStore, hw]
      | some content =>
        cases hp : parseJSON content <;> simp [obsStore, hp]
  · unfold V1.reload Store.reload
    cases hi : st.initialized with
    | false => rfl
    | true =>
      have hne : ¬(true = false) := by decide
      rw [if_neg hne, if_neg hne]
      cases hr : fs.read st.filePath with
      | none => simp [obsStore, hr]
      | some content =>
        cases hp : parseJSON content <;> simp [obsStore, hr, hp]

/-! ## C4 — round-trip: decimal digits -/

theorem natCharsAux_eq (fuel : Nat) : ∀ n acc, n ≤ fuel →
    natCharsAux fuel n acc = ((Nat.digits 10 n).reverse.map digitChar) ++ acc := by
  induction fuel with
  | zero =>
    intro n acc hn
    have h0 : n = 0 := Nat.le_zero.mp hn
    subst h0
    simp [natCharsAux, Nat.digits_zero]
  | succ f ih =>
    intro n acc hn
    by_cases h0 : n = 0
    · subst h0
      simp [natCharsAux, Nat.digits_zero]
    · rw [natCharsAux, if_neg h0]
      have hdiv : n / 10 ≤ f := by
        have := Nat.div_lt_self (Nat.pos_of_ne_zero h0) (by norm_num : 1 < 10)
        omega
      rw [ih (n / 10) _ hdiv,
        Nat.digits_def' (by norm_num : 1 < 10) (Nat.pos_of_ne_zero h0)]
      simp

theorem digitVal_digitChar : ∀ d, d < 10 → digitVal (digitChar d) = d := by decide

theorem isDigitChar_digitChar : ∀ d, d < 10 → isDigitChar (digitChar d) = true := by
  decide

theorem decodeDigits_natChars (n : Nat) : decodeDigits (natChars n) = n := by
  by_cases h0 : n = 0
  · subst h0
    decide
  · rw [natChars, if_neg h0, natCharsAux_eq n n [] le_rfl, List.append_nil]
    unfold decodeDigits
    rw [List.map_map, ← List.map_reverse, List.reverse_reverse]
    simp only [Function.comp_def]
    rw [List.map_congr_left
      (fun d hd => digitVal_digitChar d (Nat.digits_lt_base (by norm_num) hd))]
    rw [List.map_id', Nat.ofDigits_digits]

theorem natChars_all_digits (n : Nat) : ∀ c ∈ natChars n, isDigitChar c = true := by
  by_cases h0 : n = 0
  · subst h0
    decide
  · rw [natChars, if_neg h0, natCharsAux_eq n n [] le_rfl, List.append_nil]
    intro c hc
    rcases List.mem_map.mp (by simpa using hc) with ⟨d, hd, rfl⟩
    exact isDigitChar_digitChar d (Nat.digits_lt_base (by norm_num) hd)

theorem natChars_ne_nil (n : Nat) : natChars n ≠ [] := by
  by_cases h0 : n = 0
  · subst h0
    decide
  · rw [natChars, if_neg h0, natCharsAux_eq n n [] le_rfl, List.append_nil]
    simp [Nat.digits_ne_nil_iff_ne_zero.mpr h0]

/-! ## C4 — round-trip: string escapes -/

theorem hexVal_hexChar : ∀ d, d < 16 → hexVal (hexChar d) = d := by decide

theorem isHexChar_hexChar : ∀ d, d < 16 → isHexChar (hexChar d) = true := by decide

/-- Unescaping inverts escaping, one character at a time. -/
theorem unescapeHead_escapeChar (c : Char) (rest : List Char) :
    unescapeHead (escapeChar c ++ rest) = some (some c, rest) := by
  by_cases hq : c = '"'
  · subst hq
    simp [escapeChar, unescapeHead, unescEscape, unescEsc1]
  by_cases hb : c = '\\'
  · subst hb
    simp [escapeChar, unescapeHead, unescEscape, unescEsc1]
  by_cases h8 : c.toNat = 8
  · rw [escapeChar, if_neg hq, if_neg hb, if_pos h8]
    simp [unescapeHead, unescEscape, unescEsc1]
    rw [← h8, Char.ofNat_toNat]
  by_cases h9 : c.toNat = 9
  · rw [escapeChar, if_neg hq, if_neg hb, if_neg h8, if_pos h9]
    simp [unescapeHead, unescEscape, unescEsc1]
    rw [← h9, Char.ofNat_toNat]
  by_cases h10 : c.toNat = 10
  · rw [escapeChar, if_neg hq, if_neg hb, if_neg h8, if_neg h9, if_pos h10]
    simp [unescapeHead, unescEscape, unescEsc1]
    rw [← h10, Char.ofNat_toNat]
  by_cases h12 : c.toNat = 12
  · rw [escapeChar, if_neg hq, if_neg hb, if_neg h8, if_neg h9, if_neg h10,
      if_pos h12]
    simp [unescapeHead, unescEscape, unescEsc1]
    rw [← h12, Char.ofNat_toNat]
  by_cases h13 : c.toNat = 13
  · rw [escapeChar, if_neg hq, if_neg hb, if_neg h8, if_neg h9, if_neg h10,
      if_neg h12, if_pos h13]
    simp [unescapeHead, unescEscape, unescEsc1]
    rw [← h13, Char.ofNat_toNat]
  by_cases hlt : c.toNat < 32
  · rw [escapeChar, if_neg hq, if_neg hb, if_neg h8, if_neg h9, if_neg h10,
      if_neg h12, if_neg h13, if_pos hlt]
    have hhi : isHexChar (hexChar (c.toNat / 16)) = true :=
      isHexChar_hexChar _ (by omega)
    have hlo : isHexChar (hexChar (c.toNat % 16)) = true :=
      isHexChar_hexChar _ (by omega)
    have vhi : hexVal (hexChar (c.toNat / 16)) = c.toNat / 16 :=
      hexVal_hexChar _ (by omega)
    have vlo : hexVal (hexChar (c.toNat % 16)) = c.toNat % 16 :=
      hexVal_hexChar _ (by omega)
    simp only [List.cons_append, List.nil_append]
    rw [unescapeHead]
    rw [if_neg (show ¬('\\' = '"') by decide), if_pos rfl]
    rw [unescEscape]
    rw [if_pos rfl]
    rw [unescHex4]
    rw [if_pos (show (isHexChar '0' && isHexChar '0' &&
      isHexChar (hexChar (c.toNat / 16)) &&
      isHexChar (hexChar (c.toNat % 16))) = true by
        simp [hhi, hlo]
        decide)]
    have harith : hexVal '0' * 4096 + hexVal '0' * 256 +
        hexVal (hexChar (c.toNat / 16)) * 16 +
        hexVal (hexChar (c.toNat % 16)) = c.toNat := by
      rw [vhi, vlo, show hexVal '0' = 0 from rfl]
      omega
    rw [harith, Char.ofNat_toNat]
  · rw [escapeChar, if_neg hq, if_neg hb, if_neg h8, if_neg h9, if_neg h10,
      if_neg h12, if_neg h13, if_neg hlt]
    simp [unescapeHead, hq, hb, hlt]

theorem unescapeHead_quote (rest : List Char) :
    unescapeHead ('"' :: rest) = some (none, rest) := rfl

theorem lexStr_close (acc rest : List Char) :
    lexStr acc ('"' :: rest) = some (String.mk acc.reverse, rest) := by
  rw [lexStr]
  split
  · rename_i heq
    rw [unescapeHead_quote] at heq
    cases heq
  · rename_i r heq
    rw [unescapeHead_quote] at heq
    cases heq
    rfl
  · rename_i c r heq
    rw [unescapeHead_quote] at heq
    cases heq

theorem lexStr_cons (acc : List Char) (c : Char) (cs rest : List Char)
    (h : unescapeHead cs = some (some c, rest)) :
    lexStr acc cs = lexStr (c :: acc) rest := by
  rw [lexStr]
  split
  · rename_i heq
    rw [h] at heq
    cases heq
  · rename_i r heq
    rw [h] at heq
    cases heq
  · rename_i c2 r heq
    rw [h] at heq
    cases heq
    rfl

/-- `lexStr` inverts the escaped rendering of a string body. -/
theorem lexStr_escape (l : List Char) : ∀ (acc rest : List Char),
    lexStr acc (l.flatMap escapeChar ++ '"' :: rest) =
      some (String.mk (acc.reverse ++ l), rest) := by
  induction l with
  | nil =>
    intro acc rest
    rw [List.flatMap_nil, List.nil_append, lexStr_close, List.append_nil]
  | cons c tl ih =>
    intro acc rest
    rw [List.flatMap_cons, List.append_assoc,
      lexStr_cons acc c _ _ (unescapeHead_escapeChar c _), ih (c :: acc) rest,
      List.reverse_cons, List.append_assoc, List.singleton_append]

theorem String.mk_data (s : String) : String.mk s.data = s := rfl

/-- Lexing a quoted string literal, one token. -/
theorem lexTok1_quote (s : String) (cs : List Char) :
    lexTok1 (quoteChars s ++ cs) = some (some (.tstr s), cs) := by
  show lexTok1 (('"' :: (s.data.flatMap escapeChar ++ ['"'])) ++ cs) = _
  rw [List.cons_append, List.append_assoc, List.singleton_append]
  show Option.map (fun p : String × List Char => (some (Tok.tstr p.1), p.2))
    (lexStr [] (s.data.flatMap escapeChar ++ '"' :: cs)) = _
  rw [lexStr_escape]
  rfl

/-- Lexing a quoted string literal. -/
theorem lexToks_quote (s : String) (cs : List Char) :
    lexToks (quoteChars s ++ cs) = (lexToks cs).map (.tstr s :: ·) :=
  lexToks_step_cons (lexTok1_quote s cs)

/-! ## C4 — round-trip: lexing printed values -/

theorem lexTok1_space (cs : List Char) : lexTok1 (' ' :: cs) = lexTok1 cs := rfl

theorem lexTok1_newline (cs : List Char) : lexTok1 ('\n' :: cs) = lexTok1 cs := rfl

theorem lexToks_newline (cs : List Char) : lexToks ('\n' :: cs) = lexToks cs :=
  lexToks_congr (lexTok1_newline cs)

theorem lexToks_gap (m : Nat) (cs : List Char) :
    lexToks (List.replicate m ' ' ++ cs) = lexToks cs := by
  induction m with
  | zero => rw [List.replicate_zero, List.nil_append]
  | succ k ih =>
    rw [List.replicate_succ, List.cons_append,
      lexToks_congr (lexTok1_space (List.replicate k ' ' ++ cs)), ih]

theorem lexToks_lbrack (cs : List Char) :
    lexToks ('[' :: cs) = (lexToks cs).map (.lbrack :: ·) :=
  lexToks_step_cons rfl

theorem lexToks_rbrack (cs : List Char) :
    lexToks (']' :: cs) = (lexToks cs).map (.rbrack :: ·) :=
  lexToks_step_cons rfl

theorem lexToks_lbrace (cs : List Char) :
    lexToks ('{' :: cs) = (lexToks cs).map (.lbrace :: ·) :=
  lexToks_step_cons rfl

theorem lexToks_rbrace (cs : List Char) :
    lexToks ('}' :: cs) = (lexToks cs).map (.rbrace :: ·) :=
  lexToks_step_cons rfl

theorem lexToks_colon (cs : List Char) :
    lexToks (':' :: cs) = (lexToks cs).map (.colon :: ·) :=
  lexToks_step_cons rfl

theorem lexToks_comma (cs : List Char) :
    lexToks (',' :: cs) = (lexToks cs).map (.comma :: ·) :=
  lexToks_step_cons rfl

theorem lexToks_null (cs : List Char) :
    lexToks ('n' :: 'u' :: 'l' :: 'l' :: cs) = (lexToks cs).map (.tnull :: ·) :=
  lexToks_step_cons rfl

theorem lexToks_true (cs : List Char) :
    lexToks ('t' :: 'r' :: 'u' :: 'e' :: cs) = (lexToks cs).map (.ttrue :: ·) :=
  lexToks_step_cons rfl

theorem lexToks_false (cs : List Char) :
    lexToks ('f' :: 'a' :: 'l' :: 's' :: 'e' :: cs) =
      (lexToks cs).map (.tfalse :: ·) :=
  lexToks_step_cons rfl

theorem lexToks_empty : lexToks [] = some [] := lexToks_step_eof rfl

/-- Lexing an unsigned number token. -/
theorem lexTok1_digit (c : Char) (rest : List Char) (hd : isDigitChar c = true) :
    lexTok1 (c :: rest) =
      some (some (.tnum (decodeDigits (c :: rest.takeWhile isDigitChar))),
        rest.dropWhile isDigitChar) := by
  have hne : ∀ d : Char, d.toNat < 48 ∨ 57 < d.toNat → c ≠ d := by
    intro d hd2 heq
    subst heq
    simp [isDigitChar] at hd
    rcases hd2 with h | h <;> omega
  have hws : isWsChar c = false := by
    simp only [isWsChar, Bool.or_eq_false_iff, decide_eq_false_iff_not]
    exact ⟨⟨⟨hne ' ' (by decide), hne '\n' (by decide)⟩, hne '\t' (by decide)⟩,
      hne '\r' (by decide)⟩
  have hpunct : lexPunct c = none := by
    rw [lexPunct, if_neg (hne '{' (by decide)), if_neg (hne '}' (by decide)),
      if_neg (hne '[' (by decide)), if_neg (hne ']' (by decide)),
      if_neg (hne ':' (by decide)), if_neg (hne ',' (by decide))]
  rw [lexTok1]
  rw [List.dropWhile_cons, if_neg (by simp [hws])]
  split
  · rename_i heq
    cases heq
  · rename_i c2 rest2 heq
    cases heq
    split
    · rename_i t' heq2
      rw [hpunct] at heq2
      cases heq2
    · rw [if_neg (hne '"' (by decide)), if_neg (hne '-' (by decide)), if_pos hd]

/-- Lexing a negative number token. -/
theorem lexTok1_neg (d : Char) (rest : List Char) (hd : isDigitChar d = true) :
    lexTok1 ('-' :: d :: rest) =
      some (some (.tnum (-(decodeDigits (d :: rest.takeWhile isDigitChar)))),
        rest.dropWhile isDigitChar) := by
  show (if isDigitChar d = true then
      some (some (Tok.tnum (-(decodeDigits (d :: rest.takeWhile isDigitChar)))),
        rest.dropWhile isDigitChar)
    else none) = _
  rw [if_pos hd]

/-- `true` iff the input does not begin with a digit (so a preceding
number token cannot absorb it). -/
def headNotDigit : List Char → Bool
  | [] => true
  | c :: _ => !isDigitChar c

theorem takeDrop_digits (ds : List Char) (cs : List Char)
    (hds : ∀ d ∈ ds, isDigitChar d = true) (hcs : headNotDigit cs = true) :
    (ds ++ cs).takeWhile isDigitChar = ds ∧
      (ds ++ cs).dropWhile isDigitChar = cs := by
  induction ds with
  | nil =>
    rcases cs with _ | ⟨c, cs'⟩
    · exact ⟨rfl, rfl⟩
    · simp only [headNotDigit, Bool.not_eq_true'] at hcs
      simp [List.takeWhile_cons, List.dropWhile_cons, hcs]
  | cons d ds' ih =>
    have hd := hds d (List.mem_cons_self d ds')
    have ih2 := ih (fun d2 h2 => hds d2 (List.mem_cons_of_mem d h2))
    simp only [List.cons_append, List.takeWhile_cons, List.dropWhile_cons, hd,
      if_pos]
    exact ⟨by rw [ih2.1], by rw [ih2.2]⟩

/-- Lexing the decimal rendering of an integer. -/
theorem lexToks_intNum (i : Int) (cs : List Char) (hcs : headNotDigit cs = true) :
    lexToks (intChars i ++ cs) = (lexToks cs).map (.tnum i :: ·) := by
  obtain ⟨c, ds, hnc⟩ : ∃ c ds, natChars i.natAbs = c :: ds := by
    rcases hh : natChars i.natAbs with _ | ⟨c, ds⟩
    · exact absurd hh (natChars_ne_nil _)
    · exact ⟨c, ds, rfl⟩
  have hc : isDigitChar c = true :=
    natChars_all_digits _ c (by rw [hnc]; exact List.mem_cons_self c ds)
  have hds : ∀ d ∈ ds, isDigitChar d = true :=
    fun d hd => natChars_all_digits _ d (by rw [hnc]; exact List.mem_cons_of_mem c hd)
  have hdec : decodeDigits (c :: ds) = i.natAbs := by
    rw [← hnc]
    exact decodeDigits_natChars _
  by_cases hneg : i < 0
  · rw [intChars, if_pos hneg, hnc]
    have h1 := lexTok1_neg c (ds ++ cs) hc
    rw [(takeDrop_digits ds cs hds hcs).1, (takeDrop_digits ds cs hds hcs).2] at h1
    have h2 := lexToks_step_cons h1
    rw [hdec] at h2
    have h4 : -((i.natAbs : Nat) : Int) = i := by omega
    rw [h4] at h2
    simpa using h2
  · rw [intChars, if_neg hneg, hnc]
    have h1 := lexTok1_digit c (ds ++ cs) hc
    rw [(takeDrop_digits ds cs hds hcs).1, (takeDrop_digits ds cs hds hcs).2] at h1
    have h2 := lexToks_step_cons h1
    rw [hdec] at h2
    have h4 : ((i.natAbs : Nat) : Int) = i := by omega
    rw [h4] at h2
    simpa using h2

theorem lexToks_space (cs : List Char) : lexToks (' ' :: cs) = lexToks cs :=
  lexToks_congr (lexTok1_space cs)

theorem lexToks_gap2 (ind : Nat) (cs : List Char) :
    lexToks (gap ind ++ cs) = lexToks cs :=
  lexToks_gap (2 * ind) cs

mutual

/-- The token sequence that lexing the pretty-printed form of `v` yields. -/
def toksOf : JValue → List Tok
  | .null => [.tnull]
  | .bool true => [.ttrue]
  | .bool false => [.tfalse]
  | .num i => [.tnum i]
  | .str s => [.tstr s]
  | .arr [] => [.lbrack, .rbrack]
  | .arr (v :: vs) => .lbrack :: (toksOf v ++ (elemsToks vs ++ [.rbrack]))
  | .obj [] => [.lbrace, .rbrace]
  | .obj ((k, v) :: ms) =>
    .lbrace :: .tstr k :: .colon :: (toksOf v ++ (memsToks ms ++ [.rbrace]))
termination_by v => sizeOf v

/-- Tokens of the remaining array elements (each preceded by a comma). -/
def elemsToks : List JValue → List Tok
  | [] => []
  | w :: ws => .comma :: (toksOf w ++ elemsToks ws)
termination_by ws => sizeOf ws

/-- Tokens of the remaining object members (each preceded by a comma). -/
def memsToks : List (String × JValue) → List Tok
  | [] => []
  | (k, v) :: ms => .comma :: .tstr k :: .colon :: (toksOf v ++ memsToks ms)
termination_by ms => sizeOf ms

end

mutual

/-- Lexing a printed value followed by anything that does not start with a
digit prepends `toksOf v` to the tokens of the remainder. -/
theorem lexToks_printVal (v : JValue) (ind : Nat) (cs : List Char)
    (hcs : headNotDigit cs = true) :
    lexToks (printVal v ind ++ cs) = (lexToks cs).map (fun ts => toksOf v ++ ts) := by
  cases v with
  | null =>
    simp only [printVal, toksOf, List.cons_append, List.nil_append]
    exact lexToks_null cs
  | bool b =>
    cases b with
    | true =>
      simp only [printVal, toksOf, List.cons_append, List.nil_append]
      exact lexToks_true cs
    | false =>
      simp only [printVal, toksOf, List.cons_append, List.nil_append]
      exact lexToks_false cs
  | num i =>
    simp only [printVal, toksOf, List.cons_append, List.nil_append]
    exact lexToks_intNum i cs hcs
  | str s =>
    simp only [printVal, toksOf, List.cons_append, List.nil_append]
    exact lexToks_quote s cs
  | arr l =>
    cases l with
    | nil =>
      simp only [printVal, toksOf, List.cons_append, List.nil_append]
      rw [lexToks_lbrack, lexToks_rbrack, Option.map_map]
      rfl
    | cons v vs =>
      simp only [printVal, toksOf, List.cons_append, List.append_assoc,
        List.singleton_append, List.nil_append]
      rw [lexToks_lbrack, lexToks_newline]
      rw [lexToks_printElems v vs (ind + 1) ('\n' :: (gap ind ++ ']' :: cs)) rfl]
      rw [lexToks_newline, lexToks_gap2, lexToks_rbrack, Option.map_map,
        Option.map_map]
      rfl
  | obj l =>
    cases l with
    | nil =>
      simp only [printVal, toksOf, List.cons_append, List.nil_append]
      rw [lexToks_lbrace, lexToks_rbrace, Option.map_map]
      rfl
    | cons m ms =>
      obtain ⟨k, v⟩ := m
      simp only [printVal, toksOf, List.cons_append, List.append_assoc,
        List.singleton_append, List.nil_append]
      rw [lexToks_lbrace, lexToks_newline]
      rw [lexToks_printMems k v ms (ind + 1) ('\n' :: (gap ind ++ '}' :: cs)) rfl]
      rw [lexToks_newline, lexToks_gap2, lexToks_rbrace, Option.map_map,
        Option.map_map]
      rfl
termination_by sizeOf v

/-- Lexing a printed element list prepends the element tokens. -/
theorem lexToks_printElems (v : JValue) (vs : List JValue) (ind : Nat)
    (cs : List Char) (hcs : headNotDigit cs = true) :
    lexToks (printElems v vs ind ++ cs) =
      (lexToks cs).map (fun ts => toksOf v ++ (elemsToks vs ++ ts)) := by
  cases vs with
  | nil =>
    simp only [printElems, elemsToks, List.append_assoc, List.nil_append]
    rw [lexToks_gap2, lexToks_printVal v ind cs hcs]
  | cons w ws =>
    simp only [printElems, elemsToks, List.cons_append, List.append_assoc,
      List.nil_append]
    rw [lexToks_gap2]
    rw [lexToks_printVal v ind (',' :: '\n' :: (printElems w ws ind ++ cs)) rfl]
    rw [lexToks_comma, lexToks_newline]
    rw [lexToks_printElems w ws ind cs hcs]
    rw [Option.map_map, Option.map_map]
    rfl
termination_by 1 + sizeOf v + sizeOf vs

/-- Lexing a printed member list prepends the member tokens. -/
theorem lexToks_printMems (k : String) (v : JValue)
    (ms : List (String × JValue)) (ind : Nat) (cs : List Char)
    (hcs : headNotDigit cs = true) :
    lexToks (printMems (k, v) ms ind ++ cs) =
      (lexToks cs).map
        (fun ts => .tstr k :: .colon :: (toksOf v ++ (memsToks ms ++ ts))) := by
  cases ms with
  | nil =>
    simp only [printMems, memsToks, List.cons_append, List.append_assoc,
      List.nil_append]
    rw [lexToks_gap2, lexToks_quote, lexToks_colon, lexToks_space]
    rw [lexToks_printVal v ind cs hcs]
    rw [Option.map_map, Option.map_map]
    rfl
  | cons m ms' =>
    obtain ⟨k', v'⟩ := m
    simp only [printMems, memsToks, List.cons_append, List.append_assoc,
      List.nil_append]
    rw [lexToks_gap2, lexToks_quote, lexToks_colon, lexToks_space]
    rw [lexToks_printVal v ind
      (',' :: '\n' :: (printMems (k', v') ms' ind ++ cs)) rfl]
    rw [lexToks_comma, lexToks_newline]
    rw [lexToks_printMems k' v' ms' ind cs hcs]
    rw [Option.map_map, Option.map_map, Option.map_map, Option.map_map]
    rfl
termination_by 1 + (1 + sizeOf k + sizeOf v) + sizeOf ms

end

mutual

/-- Fuel needed by `parseVal` to parse the tokens of `v`. -/
def jsize : JValue → Nat
  | .null => 1
  | .bool _ => 1
  | .num _ => 1
  | .str _ => 1
  | .arr [] => 1
  | .arr (v :: vs) => 1 + jsize v + tsize vs
  | .obj [] => 1
  | .obj ((_, v) :: ms) => 1 + jsize v + msize ms
termination_by v => sizeOf v

/-- Fuel needed by `parseArrTail` for the remaining elements. -/
def tsize : List JValue → Nat
  | [] => 1
  | w :: ws => 1 + jsize w + tsize ws
termination_by ws => sizeOf ws

/-- Fuel needed by `parseObjTail` for the remaining members. -/
def msize : List (String × JValue) → Nat
  | [] => 1
  | (_, v) :: ms => 1 + jsize v + msize ms
termination_by ms => sizeOf ms

end

theorem jsize_pos (v : JValue) : 1 ≤ jsize v := by
  cases v with
  | null => simp [jsize]
  | bool b => simp [jsize]
  | num i => simp [jsize]
  | str s => simp [jsize]
  | arr l => cases l <;> simp [jsize] <;> omega
  | obj l => rcases l with _ | ⟨⟨k, v⟩, ms⟩ <;> simp [jsize] <;> omega

theorem tsize_pos (vs : List JValue) : 1 ≤ tsize vs := by
  cases vs <;> simp [tsize] <;> omega

theorem msize_pos (ms : List (String × JValue)) : 1 ≤ msize ms := by
  rcases ms with _ | ⟨⟨k, v⟩, ms⟩ <;> simp [msize] <;> omega

/-- A printed value never starts with a closing bracket token. -/
theorem toksOf_head_ne_rbrack (v : JValue) (X : List Tok) :
    ¬((toksOf v ++ X).head? = some Tok.rbrack) := by
  cases v with
  | null => simp [toksOf]
  | bool b => cases b <;> simp [toksOf]
  | num i => simp [toksOf]
  | str s => simp [toksOf]
  | arr l => cases l <;> simp [toksOf]
  | obj l => rcases l with _ | ⟨⟨k, v⟩, ms⟩ <;> simp [toksOf]

mutual

/-- With enough fuel, `parseVal` consumes exactly the tokens of `v`. -/
theorem parseVal_toksOf (v : JValue) (fuel : Nat) (rest : List Tok)
    (hf : jsize v ≤ fuel) :
    parseVal fuel (toksOf v ++ rest) = some (v, rest) := by
  obtain ⟨f, rfl⟩ : ∃ f, fuel = f + 1 := by
    cases fuel with
    | zero => exact absurd hf (by have := jsize_pos v; omega)
    | succ f => exact ⟨f, rfl⟩
  cases v with
  | null => simp [toksOf, parseVal]
  | bool b => cases b <;> simp [toksOf, parseVal]
  | num i => simp [toksOf, parseVal]
  | str s => simp [toksOf, parseVal]
  | arr l =>
    cases l with
    | nil => simp [toksOf, parseVal]
    | cons v vs =>
      have h1 : jsize v ≤ f := by
        have := tsize_pos vs; simp only [jsize] at hf; omega
      have h2 : tsize vs ≤ f := by
        have := jsize_pos v; simp only [jsize] at hf; omega
      simp only [toksOf, List.cons_append, List.append_assoc,
        List.singleton_append, List.nil_append]
      rw [parseVal]
      rw [if_neg (toksOf_head_ne_rbrack v _)]
      rw [parseVal_toksOf v f (elemsToks vs ++ Tok.rbrack :: rest) h1]
      simp [parseArrTail_elemsToks vs f rest h2]
  | obj l =>
    rcases l with _ | ⟨⟨k, v⟩, ms⟩
    · simp [toksOf, parseVal]
    · have h1 : jsize v ≤ f := by
        have := msize_pos ms; simp only [jsize] at hf; omega
      have h2 : msize ms ≤ f := by
        have := jsize_pos v; simp only [jsize] at hf; omega
      simp only [toksOf, List.cons_append, List.append_assoc,
        List.singleton_append, List.nil_append]
      rw [parseVal]
      rw [if_neg (by simp)]
      rw [parseVal_toksOf v f (memsToks ms ++ Tok.rbrace :: rest) h1]
      simp [parseObjTail_memsToks ms f rest h2]
termination_by fuel

/-- With enough fuel, `parseArrTail` consumes the element tokens up to the
closing bracket. -/
theorem parseArrTail_elemsToks (vs : List JValue) (fuel : Nat)
    (rest : List Tok) (hf : tsize vs ≤ fuel) :
    parseArrTail fuel (elemsToks vs ++ Tok.rbrack :: rest) = some (vs, rest) := by
  obtain ⟨f, rfl⟩ : ∃ f, fuel = f + 1 := by
    cases fuel with
    | zero => exact absurd hf (by have := tsize_pos vs; omega)
    | succ f => exact ⟨f, rfl⟩
  cases vs with
  | nil => simp [elemsToks, parseArrTail]
  | cons w ws =>
    have h1 : jsize w ≤ f := by
      have := tsize_pos ws; simp only [tsize] at hf; omega
    have h2 : tsize ws ≤ f := by
      have := jsize_pos w; simp only [tsize] at hf; omega
    simp only [elemsToks, List.cons_append, List.append_assoc, List.nil_append]
    rw [parseArrTail]
    rw [parseVal_toksOf w f (elemsToks ws ++ Tok.rbrack :: rest) h1]
    simp [parseArrTail_elemsToks ws f rest h2]
termination_by fuel

/-- With enough fuel, `parseObjTail` consumes the member tokens up to the
closing brace. -/
theorem parseObjTail_memsToks (ms : List (String × JValue)) (fuel : Nat)
    (rest : List Tok) (hf : msize ms ≤ fuel) :
    parseObjTail fuel (memsToks ms ++ Tok.rbrace :: rest) = some (ms, rest) := by
  obtain ⟨f, rfl⟩ : ∃ f, fuel = f + 1 := by
    cases fuel with
    | zero => exact absurd hf (by have := msize_pos ms; omega)
    | succ f => exact ⟨f, rfl⟩
  rcases ms with _ | ⟨⟨k, v⟩, ms'⟩
  · simp [memsToks, parseObjTail]
  · have h1 : jsize v ≤ f := by
      have := msize_pos ms'; simp only [msize] at hf; omega
    have h2 : msize ms' ≤ f := by
      have := jsize_pos v; simp only [msize] at hf; omega
    simp only [memsToks, List.cons_append, List.append_assoc, List.nil_append]
    rw [parseObjTail]
    rw [parseVal_toksOf v f (memsToks ms' ++ Tok.rbrace :: rest) h1]
    simp [parseObjTail_memsToks ms' f rest h2]
termination_by fuel

end

theorem printVal_length_pos (v : JValue) (ind : Nat) :
    1 ≤ (printVal v ind).length := by
  cases v with
  | null => simp [printVal]
  | bool b => cases b <;> simp [printVal]
  | num i =>
    simp only [printVal, intChars]
    split
    · simp
    · rcases h : natChars i.natAbs with _ | ⟨c, cs⟩
      · exact absurd h (natChars_ne_nil _)
      · simp [h]
  | str s => simp [printVal, quoteChars]
  | arr l => cases l <;> simp [printVal]
  | obj l => cases l <;> simp [printVal]

mutual

/-- The parser fuel a value needs is at most its printed length. -/
theorem jsize_le_printVal (v : JValue) (ind : Nat) :
    jsize v ≤ (printVal v ind).length := by
  cases v with
  | null => simp [jsize, printVal]
  | bool b => cases b <;> simp [jsize, printVal]
  | num i => have := printVal_length_pos (.num i) ind; simpa [jsize] using this
  | str s => have := printVal_length_pos (.str s) ind; simpa [jsize] using this
  | arr l =>
    cases l with
    | nil => simp [jsize, printVal]
    | cons v vs =>
      have h := sizes_le_printElems v vs (ind + 1)
      simp only [jsize, printVal, List.length_cons, List.length_append]
      omega
  | obj l =>
    rcases l with _ | ⟨⟨k, v⟩, ms⟩
    · simp [jsize, printVal]
    · have h := sizes_le_printMems k v ms (ind + 1)
      simp only [jsize, printVal, List.length_cons, List.length_append]
      omega
termination_by sizeOf v

/-- Fuel for an element list is at most the printed length plus one. -/
theorem sizes_le_printElems (v : JValue) (vs : List JValue) (ind : Nat) :
    jsize v + tsize vs ≤ (printElems v vs ind).length + 1 := by
  cases vs with
  | nil =>
    have h := jsize_le_printVal v ind
    simp only [tsize, printElems, List.length_append]
    omega
  | cons w ws =>
    have h1 := jsize_le_printVal v ind
    have h2 := sizes_le_printElems w ws ind
    simp only [tsize, printElems, List.length_append, List.length_cons]
    omega
termination_by 1 + sizeOf v + sizeOf vs

/-- Fuel for a member list is at most the printed length plus one. -/
theorem sizes_le_printMems (k : String) (v : JValue)
    (ms : List (String × JValue)) (ind : Nat) :
    jsize v + msize ms ≤ (printMems (k, v) ms ind).length + 1 := by
  cases ms with
  | nil =>
    have h := jsize_le_printVal v ind
    simp only [msize, printMems, List.length_append, List.length_cons]
    omega
  | cons m ms' =>
    obtain ⟨k', v'⟩ := m
    have h1 := jsize_le_printVal v ind
    have h2 := sizes_le_printMems k' v' ms' ind
    simp only [msize, printMems, List.length_append, List.length_cons]
    omega
termination_by 1 + (1 + sizeOf k + sizeOf v) + sizeOf ms

end

theorem parseJSON_stringify (v : JValue) : parseJSON (stringify v) = some v := by
  have hlex : lexToks (printVal v 0) = some (toksOf v) := by
    have h := lexToks_printVal v 0 [] rfl
    rw [List.append_nil] at h
    rw [h, lexToks_empty]
    simp
  have hf : jsize v ≤ (stringify v).length + 1 := by
    have h1 := jsize_le_printVal v 0
    have h2 : (stringify v).length = (printVal v 0).length := rfl
    omega
  have hparse : parseVal ((stringify v).length + 1) (toksOf v) = some (v, []) := by
    have h := parseVal_toksOf v ((stringify v).length + 1) [] hf
    rwa [List.append_nil] at h
  simp only [parseJSON]
  rw [show (stringify v).data = printVal v 0 from rfl, hlex]
  simp [hparse]

/-- **C4**: for every JSON-serializable document `D`, setting the in-memory
document to `D` and calling `save()`, then calling `load()` on a fresh store
instance pointed at the same path, succeeds and yields an in-memory document
deep-equal to `D`: parsing the serializer's 2-space-indented output
round-trips the value. -/
theorem c4_save_load_roundtrip (D dflt0 dflt : JValue) (fp uuid uuid2 : String)
    (dr : Bool) (fs : FS)
    (hdir : fs.dirs.contains (dirnameStr fp) = true) :
    (Store.save (Store.mk fp D true dr dflt0) uuid noFaults fs).1 = none ∧
    (Store.load (Store.new fp dflt) uuid2 noFaults
        (Store.save (Store.mk fp D true dr dflt0) uuid noFaults fs).2.2).1 = none ∧
    (Store.load (Store.new fp dflt) uuid2 noFaults
        (Store.save (Store.mk fp D true dr dflt0) uuid noFaults fs).2.2).2.1.data
      = D := by
  have hw : writeAtomic fp uuid D noFaults fs =
      (none, (((fs.write (tmpName fp uuid) "").write (tmpName fp uuid)
        (stringify D)).remove (tmpName fp uuid)).write fp (stringify D)) := by
    simp [writeAtomic, noFaults, FS.read, FS.write, FS.remove,
      getAssoc_setAssoc_self]
  have hsave : Store.save (Store.mk fp D true dr dflt0) uuid noFaults fs =
      (none, Store.mk fp D true false dflt0,
        (((fs.write (tmpName fp uuid) "").write (tmpName fp uuid)
          (stringify D)).remove (tmpName fp uuid)).write fp (stringify D)) := by
    simp only [Store.save]
    rw [if_neg (by simp)]
    rw [hw]
  rw [hsave]
  have hread : ((((fs.write (tmpName fp uuid) "").write (tmpName fp uuid)
      (stringify D)).remove (tmpName fp uuid)).write fp (stringify D)).read fp =
      some (stringify D) := by
    simp [FS.read, FS.write, FS.remove, getAssoc_setAssoc_self]
  have hdirs : ((((fs.write (tmpName fp uuid) "").write (tmpName fp uuid)
      (stringify D)).remove (tmpName fp uuid)).write fp (stringify D)).dirs =
      fs.dirs := rfl
  have hload : Store.load (Store.new fp dflt) uuid2 noFaults
      ((((fs.write (tmpName fp uuid) "").write (tmpName fp uuid)
        (stringify D)).remove (tmpName fp uuid)).write fp (stringify D)) =
      (none, Store.mk fp D true false dflt,
        (((fs.write (tmpName fp uuid) "").write (tmpName fp uuid)
          (stringify D)).remove (tmpName fp uuid)).write fp (stringify D)) := by
    rw [Store.load]
    rw [show (Store.new fp dflt).filePath = fp from rfl, hdirs]
    rw [if_neg (by rw [hdir]; simp)]
    rw [readOrCreateDefault]
    rw [show (Store.new fp dflt).filePath = fp from rfl, hread]
    simp [parseJSON_stringify, Store.new]
  rw [hload]
  exact ⟨rfl, rfl, rfl⟩

theorem c4_save_load_roundtrip_witness :
    (FS.mk ["/d"] []).dirs.contains (dirnameStr "/d/f.json") = true ∧
    ((Store.save (Store.mk "/d/f.json" (.obj [("k", .num 1)]) true false .null)
        "u1" noFaults (FS.mk ["/d"] [])).1 = none ∧
      (Store.load (Store.new "/d/f.json" .null) "u2" noFaults
        (Store.save (Store.mk "/d/f.json" (.obj [("k", .num 1)]) true false
          .null) "u1" noFaults (FS.mk ["/d"] [])).2.2).1 = none ∧
      (Store.load (Store.new "/d/f.json" .null) "u2" noFaults
        (Store.save (Store.mk "/d/f.json" (.obj [("k", .num 1)]) true false
          .null) "u1" noFaults (FS.mk ["/d"] [])).2.2).2.1.data
        = .obj [("k", .num 1)]) :=
  ⟨by decide,
    c4_save_load_roundtrip (.obj [("k", .num 1)]) .null .null "/d/f.json"
      "u1" "u2" false (FS.mk ["/d"] []) (by decide)⟩
